import Mathlib

/-!
Verification of the VectricIntellisense extension's core logic
(`src/extension.ts`, final revision): the backward type inferrer
`inferVariableType`, the lexical context classifier `getCompletionContext`,
the candidate selector `provideCompletionItems`, the inheritance merger
`getClassWithInheritance`, and the `provideSignatureHelp` / `provideHover`
providers.

The TypeScript code works over raw line text with JavaScript regular
expressions.  Each regular expression the code builds is embedded here as a
dedicated matcher over `List Char`, implementing exactly the JavaScript
semantics of that one pattern (leftmost match, greedy subpatterns; for each
pattern the informal argument that greedy matching is forced is given in the
matcher's doc comment).  `\w` is `[A-Za-z0-9_]`, `\s` is whitespace, `\b` is
a word boundary.

Recursion in `inferVariableType` (property-chain and method-call patterns)
and in `getClassWithInheritance` is not structurally bounded in the source
(the recursive call can revisit the same line / a cyclic `extends` chain),
so both are embedded with an explicit fuel parameter: `none` models a
computation that exhausts its fuel (hence, holding for every fuel, a
non-terminating run of the original), `some r` models the original's result.
-/

namespace Vectric

/-- JavaScript `\w`: ASCII letters, digits and underscore. -/
def isWordChar (c : Char) : Bool :=
  c.isAlpha || c.isDigit || c == '_'

/-- JavaScript `\s` (the whitespace characters that occur in source lines). -/
def isSpaceChar (c : Char) : Bool :=
  c == ' ' || c == '\t' || c == '\r' || c == '\n' || c == '\x0b' || c == '\x0c'

/-- Consume `\s*`. -/
def dropSpaces (l : List Char) : List Char :=
  l.dropWhile isSpaceChar

/-- Consume a maximal `\w*` run, returning the run and the rest. -/
def takeWord (l : List Char) : List Char × List Char :=
  (l.takeWhile isWordChar, l.dropWhile isWordChar)

/-- Match a literal character sequence at the head of the input. -/
def stripLit : List Char → List Char → Option (List Char)
  | [], l => some l
  | _ :: _, [] => none
  | p :: ps, c :: cs => if p == c then stripLit ps cs else none

/-- Trim whitespace from both ends of a character list (JavaScript `trim`). -/
def trimChars (l : List Char) : List Char :=
  ((l.dropWhile isSpaceChar).reverse.dropWhile isSpaceChar).reverse

/-- JavaScript `s.trim()`. -/
def trimStr (s : String) : String :=
  String.mk (trimChars s.data)

/-- JavaScript `s.split(',')` (all segments, empty segments preserved). -/
def splitCommaChars : List Char → List (List Char)
  | [] => [[]]
  | c :: rest =>
    if c == ',' then [] :: splitCommaChars rest
    else match splitCommaChars rest with
      | [] => [[c]]
      | seg :: segs => (c :: seg) :: segs

/-- JavaScript `returns.split(',')[0].trim()`: the first comma-separated
token, trimmed. -/
def firstCommaTok (s : String) : String :=
  String.mk (trimChars (s.data.takeWhile (fun c => !(c == ','))))

/-- JavaScript `s.toLowerCase()` (ASCII, as used by the code's keyword and
primitive-type checks). -/
def toLowerStr (s : String) : String :=
  String.mk (s.data.map Char.toLower)

/-! ### Matchers for the regular expressions of `inferVariableType` -/

/-- Try the literal variable name at this position, passing the rest of the
line to the continuation pattern. -/
def varThen (v : List Char) (f : List Char → Option α) (l : List Char) : Option α :=
  match stripLit v l with
  | some r => f r
  | none => none

/-- Try `local\s+` at this position (greedy maximal spaces, forced since
the continuation starts with a word character), passing the rest to the
continuation pattern. -/
def localSpaceThen (f : List Char → Option α) (l : List Char) : Option α :=
  match stripLit "local".data l with
  | some after =>
    (match after with
     | a :: t => if isSpaceChar a then f (dropSpaces t) else none
     | [] => none)
  | none => none


/-- After a comma inside a binding list: test `.*\b<var>\b.*=`, i.e. some
occurrence of `var` with word boundaries on both sides, followed (anywhere
later) by a `=`.  `prevWord` records whether the character just before the
current position is a word character (for the left `\b`). -/
def existsVarThenEq (v : List Char) : Bool → List Char → Bool
  | _, [] => false
  | prevWord, c :: rest =>
    (if !prevWord then
       match stripLit v (c :: rest) with
       | some after =>
         (match after with
          | [] => false
          | a :: _ => !isWordChar a && after.any (fun x => x == '='))
       | none => false
     else false)
    || existsVarThenEq v (isWordChar c) rest

/-- Test of `` `local\s+\w+\s*,\s*.*\b<var>\b.*=` `` (the `notFirstVarLocal`
guard): a `local` keyword, a first bound name, a comma, and `var` appearing
after the comma with an `=` after it.  `\s+`/`\w+` are forced maximal because
the characters that must follow them (word chars after spaces, comma/space
after a word run) are disjoint from the run's character class. -/
def guardLocalComma (v : List Char) : List Char → Bool
  | [] => false
  | l@(_ :: rest) =>
    (match stripLit "local".data l with
     | some after =>
       (match after with
        | a :: t =>
          if isSpaceChar a then
            let (w, t2) := takeWord (dropSpaces t)
            if w.isEmpty then false
            else match dropSpaces t2 with
              | ',' :: t3 => existsVarThenEq v false t3
              | _ => false
          else false
        | [] => false)
     | none => false)
    || guardLocalComma v rest

/-- Test of `` `\w+\s*,\s*.*\b<var>\b.*=` `` (the `notFirstVarAssign` /
`notFirstVarFunc` / `notFirstVar` guards; the optional `(?:local\s+)?`
prefix of the latter two does not change whether a match exists, since any
match with the prefix contains a match of the rest starting at the first
bound name). -/
def guardAnyComma (v : List Char) : List Char → Bool
  | [] => false
  | l@(c :: rest) =>
    (if isWordChar c then
       let (_, t2) := takeWord l
       match dropSpaces t2 with
       | ',' :: t3 => existsVarThenEq v false t3
       | _ => false
     else false)
    || guardAnyComma v rest

/-- The common tail `` `\s*(?:,\s*\w+)?\s*=\s*(\w+)\s*\(` `` of the
constructor/function assignment patterns, applied to the characters
following the matched variable name; returns the captured callee name.
The optional `(?:,\s*\w+)` group is tried greedily first (JavaScript
semantics); on failure of the remainder the group is dropped. -/
def afterAssignTail (rest : List Char) : Option String :=
  let cont : List Char → Option String := fun r =>
    match dropSpaces r with
    | '=' :: t =>
      let (w, t2) := takeWord (dropSpaces t)
      if w.isEmpty then none
      else match dropSpaces t2 with
        | '(' :: _ => some (String.mk w)
        | _ => none
    | _ => none
  let r1 := dropSpaces rest
  match r1 with
  | ',' :: t =>
    let (w, t2) := takeWord (dropSpaces t)
    if w.isEmpty then cont r1
    else match cont t2 with
      | some s => some s
      | none => cont r1
  | _ => cont r1

/-- Match `` `local\s+<var>\s*(?:,\s*\w+)?\s*=\s*(\w+)\s*\(` `` (pattern 1,
`localAssignment`); no `\b` precedes `local` in the source pattern, so every
occurrence of the literal `local` is tried. -/
def matchLocalAssignment (v : List Char) : List Char → Option String
  | [] => none
  | l@(_ :: rest) =>
    localSpaceThen (varThen v afterAssignTail) l
    <|> matchLocalAssignment v rest

/-- Match `` `\b<var>\s*(?:,\s*\w+)?\s*=\s*(\w+)\s*\(` `` (pattern 2,
`assignment`). -/
def matchAssignment (v : List Char) : Bool → List Char → Option String
  | _, [] => none
  | prevWord, c :: rest =>
    (if !prevWord then varThen v afterAssignTail (c :: rest) else none)
    <|> matchAssignment v (isWordChar c) rest

/-- The tail `` `\s*=\s*(\w+)\.(\w+)` `` of the property-assignment
pattern; returns (object, property). -/
def propertyAssignTail (r : List Char) : Option (String × String) :=
  match dropSpaces r with
  | '=' :: t =>
    let (w1, t2) := takeWord (dropSpaces t)
    if w1.isEmpty then none
    else match t2 with
      | '.' :: t3 =>
        let (w2, _) := takeWord t3
        if w2.isEmpty then none else some (String.mk w1, String.mk w2)
      | _ => none
  | _ => none

/-- Match `` `\b<var>\s*=\s*(\w+)\.(\w+)` `` (pattern 3,
`propertyAssignment`); returns (object, property). -/
def matchPropertyAssignment (v : List Char) : Bool → List Char → Option (String × String)
  | _, [] => none
  | prevWord, c :: rest =>
    (if !prevWord then varThen v propertyAssignTail (c :: rest) else none)
    <|> matchPropertyAssignment v (isWordChar c) rest

/-- Match `` `(?:local\s+)?\b<var>\s*(?:,\s*\w+)?\s*=\s*(\w+)\s*\(` ``
(pattern 4, `functionAssignment`).  The greedy optional `local\s+` prefix is
tried first at each start position; there is no `\b` before `local`. -/
def matchFunctionAssignment (v : List Char) : Bool → List Char → Option String
  | _, [] => none
  | prevWord, c :: rest =>
    localSpaceThen (varThen v afterAssignTail) (c :: rest)
    <|> (if !prevWord then varThen v afterAssignTail (c :: rest) else none)
    <|> matchFunctionAssignment v (isWordChar c) rest

/-- The tail `` `\s*(?:,\s*\w+)?\s*=\s*(\w+):(\w+)\s*\(` `` of the
method-assignment pattern; returns (object, method). -/
def afterMethodTail (rest : List Char) : Option (String × String) :=
  let cont : List Char → Option (String × String) := fun r =>
    match dropSpaces r with
    | '=' :: t =>
      let (w1, t2) := takeWord (dropSpaces t)
      if w1.isEmpty then none
      else match t2 with
        | ':' :: t3 =>
          let (w2, t4) := takeWord t3
          if w2.isEmpty then none
          else match dropSpaces t4 with
            | '(' :: _ => some (String.mk w1, String.mk w2)
            | _ => none
        | _ => none
    | _ => none
  let r1 := dropSpaces rest
  match r1 with
  | ',' :: t =>
    let (w, t2) := takeWord (dropSpaces t)
    if w.isEmpty then cont r1
    else match cont t2 with
      | some s => some s
      | none => cont r1
  | _ => cont r1

/-- Match `` `(?:local\s+)?\b<var>\s*(?:,\s*\w+)?\s*=\s*(\w+):(\w+)\s*\(` ``
(pattern 4b, `methodAssignment`). -/
def matchMethodAssignment (v : List Char) : Bool → List Char → Option (String × String)
  | _, [] => none
  | prevWord, c :: rest =>
    localSpaceThen (varThen v afterMethodTail) (c :: rest)
    <|> (if !prevWord then varThen v afterMethodTail (c :: rest) else none)
    <|> matchMethodAssignment v (isWordChar c) rest

/-- Test of `` `\b(for|function)\s+<var>\b` `` (pattern 5,
`declarationPattern`). -/
def testDeclarationStop (v : List Char) : Bool → List Char → Bool
  | _, [] => false
  | prevWord, c :: rest =>
    (if !prevWord then
       let tryKw : List Char → Bool := fun kw =>
         match stripLit kw (c :: rest) with
         | some after =>
           (match after with
            | a :: t =>
              if isSpaceChar a then
                match stripLit v (dropSpaces t) with
                | some tail =>
                  (match tail with
                   | [] => true
                   | b :: _ => !isWordChar b)
                | none => false
              else false
            | [] => false)
         | none => false
       tryKw "for".data || tryKw "function".data
     else false)
    || testDeclarationStop v (isWordChar c) rest

/-! ### The API catalog data model (the TypeScript interfaces) -/

/-- `ApiParameter` from the source. -/
structure ApiParameter where
  label : String
  documentation : String
deriving DecidableEq

/-- `ApiSignature`; `returns` is optional in the interface, and the code
additionally guards every access to `signature` itself, so it is modelled
as optional where a guard exists. -/
structure ApiSignature where
  label : String
  documentation : String
  parameters : List ApiParameter
  returns : Option String
deriving DecidableEq

/-- `ApiProperty`. -/
structure ApiProperty where
  name : String
  kind : String
  detail : String
  documentation : String
  readOnly : Bool
deriving DecidableEq

/-- `ApiMethod`; the code guards `method.signature`, modelled as `Option`. -/
structure ApiMethod where
  name : String
  kind : String
  detail : String
  documentation : String
  signature : Option ApiSignature
deriving DecidableEq

/-- `ApiConstructor`. -/
structure ApiConstructor where
  label : String
  documentation : String
  parameters : List ApiParameter
deriving DecidableEq

/-- `ApiConstant`. -/
structure ApiConstant where
  name : String
  value : String
deriving DecidableEq

/-- `ApiClass`; `constructors`/`properties`/`methods`/`constants` are
optional in the interface and guarded at each use. -/
structure ApiClass where
  name : String
  kind : String
  detail : String
  documentation : String
  constructors : Option (List ApiConstructor)
  properties : Option (List ApiProperty)
  methods : Option (List ApiMethod)
  constants : Option (List ApiConstant)
deriving DecidableEq

/-- `ApiFunction`; the code guards `fn.signature`, modelled as `Option`. -/
structure ApiFunction where
  name : String
  kind : String
  detail : String
  documentation : String
  signature : Option ApiSignature
deriving DecidableEq

/-- `classes.find(cls => cls.name === className)` viewed as a test. -/
def isKnownClass (classes : List ApiClass) (n : String) : Bool :=
  (classes.find? (fun c => c.name == n)).isSome

/-- `findClassByName` from the source. -/
def findClassByName (classes : List ApiClass) (n : String) : Option ApiClass :=
  classes.find? (fun c => c.name == n)

/-- Pattern 3's member lookup: find the class named `objType`, find the
property named `propName` on it, and return `property.detail` when that is
itself a known class name. -/
def lookupPropertyClass (classes : List ApiClass) (objType propName : String) :
    Option String :=
  match classes.find? (fun c => c.name == objType) with
  | some cls =>
    match cls.properties with
    | some props =>
      match props.find? (fun p => p.name == propName) with
      | some property =>
        if isKnownClass classes property.detail then some property.detail else none
      | none => none
    | none => none
  | none => none

/-- Pattern 4's lookup: find the global function, take the first
comma-separated token of its declared return type, and return it when it is
a known class. -/
def lookupFunctionReturnClass (classes : List ApiClass)
    (globalFunctions : List ApiFunction) (fname : String) : Option String :=
  match globalFunctions.find? (fun f => f.name == fname) with
  | some globalFunc =>
    match globalFunc.signature with
    | some sig =>
      match sig.returns with
      | some returnType =>
        let firstReturnType := firstCommaTok returnType
        if isKnownClass classes firstReturnType then some firstReturnType else none
      | none => none
    | none => none
  | none => none

/-- Pattern 4b's lookup: find the class named `objType`, find the method,
take the first token of its return type, and return it when it is a known
class. -/
def lookupMethodReturnClass (classes : List ApiClass) (objType mname : String) :
    Option String :=
  match classes.find? (fun c => c.name == objType) with
  | some cls =>
    match cls.methods with
    | some ms =>
      match ms.find? (fun m => m.name == mname) with
      | some m =>
        match m.signature with
        | some sig =>
          match sig.returns with
          | some returnType =>
            let firstReturnType := firstCommaTok returnType
            if isKnownClass classes firstReturnType then some firstReturnType else none
          | none => none
        | none => none
      | none => none
    | none => none
  | none => none

/-! ### The backward type inferrer `inferVariableType` -/

/-- An editor position (only `line` is consulted by the inferrer). -/
structure Position where
  line : Nat
  character : Nat
deriving DecidableEq

/-- A document is its list of lines; `document.lineAt(n).text`. -/
def lineAt (doc : List String) (n : Nat) : String :=
  doc.getD n ""

/-- `[hi, hi-1, ..., hi-n]`: the line numbers visited by
`for (lineNum = currentLine; lineNum >= searchStart; lineNum--)`. -/
def downFrom (hi : Nat) : Nat → List Nat
  | 0 => [hi]
  | n + 1 => hi :: downFrom (hi - 1) n

/-- The window of lines scanned from `currentLine` down to
`searchStart = max(0, currentLine - 100)`. -/
def windowLines (currentLine : Nat) : List Nat :=
  downFrom currentLine (min 100 currentLine)

/-- Outcome of testing the binding patterns on one line. -/
inductive StepResult where
  | found (typeName : String)
  | skipLine
  | stopSearch
  | noMatch
  | outOfFuel
deriving DecidableEq

/-- The body of one iteration of `inferVariableType`'s line loop, on the
given line text.  `recur` is the recursive inference used by patterns 3 and
4b (invoked at `new vscode.Position(lineNum, 0)`); when it reports fuel
exhaustion the whole step does. -/
def processLineOn
    (recur : List String → Position → String → List ApiClass → List ApiFunction →
      Option (Option String))
    (doc : List String) (classes : List ApiClass) (globalFunctions : List ApiFunction)
    (varName : String) (lineNum : Nat) (line : List Char) : StepResult :=
  let v := varName.data
  let k5 : StepResult :=
    if testDeclarationStop v false line then .stopSearch else .noMatch
  let k4b : StepResult :=
    if guardAnyComma v line then .skipLine
    else match matchMethodAssignment v false line with
      | some (objectName, methodName) =>
        (match recur doc ⟨lineNum, 0⟩ objectName classes globalFunctions with
         | none => .outOfFuel
         | some none => k5
         | some (some objectType) =>
           match lookupMethodReturnClass classes objectType methodName with
           | some t => .found t
           | none => k5)
      | none => k5
  let k4 : StepResult :=
    if guardAnyComma v line then .skipLine
    else match matchFunctionAssignment v false line with
      | some functionName =>
        (match lookupFunctionReturnClass classes globalFunctions functionName with
         | some t => .found t
         | none => k4b)
      | none => k4b
  let k3 : StepResult :=
    match matchPropertyAssignment v false line with
    | some (objectName, propertyName) =>
      (match recur doc ⟨lineNum, 0⟩ objectName classes globalFunctions with
       | none => .outOfFuel
       | some none => k4
       | some (some objectType) =>
         match lookupPropertyClass classes objectType propertyName with
         | some t => .found t
         | none => k4)
    | none => k4
  let k2 : StepResult :=
    if guardAnyComma v line then .skipLine
    else match matchAssignment v false line with
      | some className =>
        if isKnownClass classes className then .found className else k3
      | none => k3
  if guardLocalComma v line then .skipLine
  else match matchLocalAssignment v line with
    | some className =>
      if isKnownClass classes className then .found className else k2
    | none => k2

/-- One iteration of the line loop, reading the line from the document. -/
def processLine
    (recur : List String → Position → String → List ApiClass → List ApiFunction →
      Option (Option String))
    (doc : List String) (classes : List ApiClass) (globalFunctions : List ApiFunction)
    (varName : String) (lineNum : Nat) : StepResult :=
  processLineOn recur doc classes globalFunctions varName lineNum (lineAt doc lineNum).data

/-- The line loop itself: first line that yields a type wins, a shadowing
declaration stops the search (returning null), a guard skips the line, fuel
exhaustion propagates. -/
def inferLoop (pl : Nat → StepResult) : List Nat → Option (Option String)
  | [] => some none
  | ln :: rest =>
    match pl ln with
    | .found t => some (some t)
    | .stopSearch => some none
    | .outOfFuel => none
    | .skipLine => inferLoop pl rest
    | .noMatch => inferLoop pl rest

/-- `inferVariableType` with fuel: `none` is fuel exhaustion (a run of the
original that would still be recursing), `some r` the original's result
(`r = none` being the original's `null`). -/
def inferVariableTypeFuel :
    Nat → List String → Position → String → List ApiClass → List ApiFunction →
      Option (Option String)
  | 0, _, _, _, _, _ => none
  | fuel + 1, doc, pos, varName, classes, globalFunctions =>
    inferLoop
      (processLine (fun d p v cs fs => inferVariableTypeFuel fuel d p v cs fs)
        doc classes globalFunctions varName)
      (windowLines pos.line)

/-! ### The lexical context classifier `getCompletionContext` -/

/-- Model of `document.getWordRangeAtPosition(position)` followed by
`document.getText(range)`: the maximal run of word characters touching the
cursor column (empty when no word character is adjacent). -/
def wordRunAround (line : List Char) (col : Nat) : List Char :=
  let before := ((line.take col).reverse.takeWhile isWordChar).reverse
  let after := (line.drop col).takeWhile isWordChar
  before ++ after

/-- The `luaBuiltInTypes` list from the source. -/
def luaBuiltInTypes : List String :=
  ["boolean", "number", "string", "function", "userdata", "thread", "table"]

/-- The `luaKeywords` list from the source. -/
def luaKeywords : List String :=
  ["and", "break", "do", "else", "elseif", "end", "false", "for", "function",
   "if", "in", "local", "nil", "not", "or", "repeat", "return", "then",
   "true", "until", "while"]

/-- Test of `` `\blocal\s+\w*$` `` against the text before the cursor,
evaluated from the end: the trailing `\w*` run and the `\s+` run are forced
maximal because word characters, spaces and the final `l` of `local` are
pairwise distinct character classes. -/
def testLocalDecl (l : List Char) : Bool :=
  let r := l.reverse
  let r1 := r.dropWhile isWordChar
  match r1 with
  | c :: _ =>
    if isSpaceChar c then
      match stripLit "local".data.reverse (r1.dropWhile isSpaceChar) with
      | some rest =>
        (match rest with
         | [] => true
         | b :: _ => !isWordChar b)
      | none => false
    else false
  | [] => false

/-- `[=<>!]`. -/
def isCompOp (c : Char) : Bool :=
  c == '=' || c == '<' || c == '>' || c == '!'

/-- From the end, the `` `[=<>!]=?` `` head of the keyword-context
patterns: a match ends either at the optional `=` or at the comparison
character itself, and since `=` is in the class `[=<>!]`, a match ending
here exists exactly when the last character is a comparison character. -/
def endsWithCompOp : List Char → Bool
  | [] => false
  | c :: _ => isCompOp c

/-- Test of `` `[=<>!]=?\s*\d+\s+\w*$` `` (keyword-context pattern 1),
evaluated from the end; each run is forced maximal as the adjoining
character classes are disjoint. -/
def testKeywordCtx1 (l : List Char) : Bool :=
  let r := l.reverse
  let r1 := r.dropWhile isWordChar
  match r1 with
  | c :: _ =>
    if isSpaceChar c then
      let r2 := r1.dropWhile isSpaceChar
      match r2 with
      | d :: _ =>
        if d.isDigit then
          let r3 := (r2.dropWhile Char.isDigit).dropWhile isSpaceChar
          endsWithCompOp r3
        else false
      | [] => false
    else false
  | [] => false

/-- Test of `` `[=<>!]=?\s*["'][^"']*["']\s+\w*$` `` (keyword-context
pattern 2): the closing quote's position is forced by the trailing
`\s+\w*$`, and the opening quote is the nearest preceding quote since
`[^\x22\x27]*` cannot cross one. -/
def testKeywordCtx2 (l : List Char) : Bool :=
  let isQuote : Char → Bool := fun c => c == '"' || c == '\''
  let r := l.reverse
  let r1 := r.dropWhile isWordChar
  match r1 with
  | c :: _ =>
    if isSpaceChar c then
      let r2 := r1.dropWhile isSpaceChar
      match r2 with
      | q1 :: r3 =>
        if isQuote q1 then
          let r4 := r3.dropWhile (fun c => !isQuote c)
          match r4 with
          | q2 :: r5 =>
            if isQuote q2 then endsWithCompOp (r5.dropWhile isSpaceChar) else false
          | [] => false
        else false
      | [] => false
    else false
  | [] => false

/-- Test of `` `[=<>!]=?\s*\w+\s+\w*$` `` (keyword-context pattern 3). -/
def testKeywordCtx3 (l : List Char) : Bool :=
  let r := l.reverse
  let r1 := r.dropWhile isWordChar
  match r1 with
  | c :: _ =>
    if isSpaceChar c then
      let r2 := r1.dropWhile isSpaceChar
      match r2 with
      | d :: _ =>
        if isWordChar d then
          let r3 := (r2.dropWhile isWordChar).dropWhile isSpaceChar
          endsWithCompOp r3
        else false
      | [] => false
    else false
  | [] => false

/-- Test of `` `\b(and|or|not)\s+\w*$` `` (keyword-context pattern 4). -/
def testKeywordCtx4 (l : List Char) : Bool :=
  let r := l.reverse
  let r1 := r.dropWhile isWordChar
  match r1 with
  | c :: _ =>
    if isSpaceChar c then
      let r2 := r1.dropWhile isSpaceChar
      let tryKw : List Char → Bool := fun kw =>
        match stripLit kw.reverse r2 with
        | some rest =>
          (match rest with
           | [] => true
           | b :: _ => !isWordChar b)
        | none => false
      tryKw "and".data || tryKw "or".data || tryKw "not".data
    else false
  | [] => false

/-- Test of `` `\)\s+\w*$` `` (keyword-context pattern 5). -/
def testKeywordCtx5 (l : List Char) : Bool :=
  let r := l.reverse
  let r1 := r.dropWhile isWordChar
  match r1 with
  | c :: _ =>
    if isSpaceChar c then
      match r1.dropWhile isSpaceChar with
      | ')' :: _ => true
      | _ => false
    else false
  | [] => false

/-- Any of the five `keywordContextPatterns`. -/
def testKeywordContext (l : List Char) : Bool :=
  testKeywordCtx1 l || testKeywordCtx2 l || testKeywordCtx3 l ||
    testKeywordCtx4 l || testKeywordCtx5 l

/-- Match `` `(\w+)\.(\w*)$` `` from the end: the trailing `\w*` pins the
dot's position (it must be the last non-word character), and the leftmost
greedy `(\w+)` is the maximal word run ending at the dot. -/
def matchDotEnd (l : List Char) : Option (String × String) :=
  let r := l.reverse
  let pre := r.takeWhile isWordChar
  match r.dropWhile isWordChar with
  | '.' :: r2 =>
    let obj := r2.takeWhile isWordChar
    if obj.isEmpty then none
    else some (String.mk obj.reverse, String.mk pre.reverse)
  | _ => none

/-- Match `` `(\w+):(\w*)$` ``, as `matchDotEnd` with `:`. -/
def matchColonEnd (l : List Char) : Option (String × String) :=
  let r := l.reverse
  let pre := r.takeWhile isWordChar
  match r.dropWhile isWordChar with
  | ':' :: r2 =>
    let obj := r2.takeWhile isWordChar
    if obj.isEmpty then none
    else some (String.mk obj.reverse, String.mk pre.reverse)
  | _ => none

/-- The backward parenthesis scan of `getCompletionContext`: walk the text
before the cursor right-to-left, incrementing depth on `)` and decrementing
on `(`; the first `(` seen at depth 0 is the innermost open call.  Input is
the reversed text; returns (text before the paren, text after it). -/
def scanOpenParen : Nat → List Char → List Char → Option (List Char × List Char)
  | _, [], _ => none
  | depth, c :: rest, acc =>
    if c == ')' then scanOpenParen (depth + 1) rest (c :: acc)
    else if c == '(' then
      if depth == 0 then some (rest.reverse, acc)
      else scanOpenParen (depth - 1) rest (c :: acc)
    else scanOpenParen depth rest (c :: acc)

/-- Match `` `(\w+)$` ``: the maximal trailing word run, nonempty. -/
def trailingWord (l : List Char) : Option String :=
  let w := l.reverse.takeWhile isWordChar
  if w.isEmpty then none else some (String.mk w.reverse)

/-- Leftmost match of `` `:\s*(\w+)` ``: the first colon followed (after
spaces) by at least one word character; the capture is the maximal word run
(forced maximal, nothing follows it in the pattern). -/
def matchColonType : List Char → Option String
  | [] => none
  | ':' :: rest =>
    let (w, _) := takeWord (dropSpaces rest)
    if w.isEmpty then matchColonType rest else some (String.mk w)
  | _ :: rest => matchColonType rest

/-- Leftmost match of `` `\([^)]*\)` `` on a constructor label, returning
the characters between the parentheses (the code's `slice(1, -1)`): the
first `(` that has a later `)`, with the greedy `[^)]*` stopping at the
first `)`. -/
def matchParenGroup : List Char → Option (List Char)
  | [] => none
  | '(' :: rest =>
    (match rest.dropWhile (fun c => !(c == ')')) with
     | ')' :: _ => some (rest.takeWhile (fun c => !(c == ')')))
     | _ => matchParenGroup rest)
  | _ :: rest => matchParenGroup rest

/-- Leftmost match of `` `(?::\s*)?(\w+)(?:\s*-|$)` `` on a parameter's
documentation: an optional leading colon (tried greedily), a maximal word
run, then either spaces and a dash, or the immediate end of the string. -/
def matchDocType : List Char → Option String
  | [] => none
  | c :: rest =>
    (if c == ':' then
       let (w, t2) := takeWord (dropSpaces rest)
       if w.isEmpty then none
       else if (match dropSpaces t2 with
                | '-' :: _ => true
                | _ => false) || t2.isEmpty then some (String.mk w)
       else none
     else if isWordChar c then
       let (w, t2) := takeWord (c :: rest)
       if (match dropSpaces t2 with
           | '-' :: _ => true
           | _ => false) || t2.isEmpty then some (String.mk w)
       else none
     else none)
    <|> matchDocType rest

/-- The constructor-disambiguation policy: the first declared constructor
with more parameters than the current argument index, else the first
declared constructor. -/
def chooseConstructor (ctors : List ApiConstructor) (commaCount : Nat) :
    Option ApiConstructor :=
  match ctors.find? (fun c => decide (commaCount < c.parameters.length)) with
  | some c => some c
  | none => ctors.head?

/-- `/^[A-Z]/.test(candidate) || candidate === 'number' | 'string' |
'boolean'` from the documentation heuristic. -/
def isCapitalOrPrimitive (cand : String) : Bool :=
  (match cand.data with
   | c :: _ => c.isUpper
   | [] => false)
  || cand == "number" || cand == "string" || cand == "boolean"

/-- The expected-type extraction for a constructor parameter, in the
source's order: (i) a `: Type` token at the parameter's position inside the
constructor label's parenthesized parameter list, (ii) a `: Type` token in
the parameter's own label, (iii) the capitalized-word / fixed-primitive
heuristic on the parameter's documentation. -/
def constructorExpectedType (constructor : ApiConstructor) (param : ApiParameter)
    (commaCount : Nat) : Option String :=
  let fromLabel : Option String :=
    match matchParenGroup constructor.label.data with
    | some inside =>
      let paramsList := (splitCommaChars inside).map trimChars
      (match paramsList.get? commaCount with
       | some paramSig => matchColonType paramSig
       | none => none)
    | none => none
  match fromLabel with
  | some t => some t
  | none =>
    match matchColonType param.label.data with
    | some t => some t
    | none =>
      match matchDocType param.documentation.data with
      | some candidate =>
        if isCapitalOrPrimitive candidate then some candidate else none
      | none => none

/-- The classified cursor context (`type` tag plus payload fields of the
source's context records; nullable string fields are always set on the
constructors that carry them). -/
inductive CompletionContext where
  | keyword
  | memberAccess (objectName className typedSoFar : String)
  | methodAccess (objectName className typedSoFar : String)
  | functionParameter (className functionName : String) (parameterIndex : Nat)
  | identifier
deriving DecidableEq

/-- The call-argument classification performed once the innermost open
call's target name and flat comma count are known: a known global function
with a `: Type` token in the current parameter's documentation wins,
otherwise a known class constructor (chosen by `chooseConstructor`) with the
`constructorExpectedType` cascade; every failure falls through to the
`identifier` classification. -/
def callArgumentContext (functionName : String) (commaCount : Nat)
    (classes : List ApiClass) (globalFunctions : List ApiFunction) :
    CompletionContext :=
  let fromFunc : Option CompletionContext :=
    match globalFunctions.find? (fun f => f.name == functionName) with
    | some func =>
      match func.signature with
      | some sig =>
        if commaCount < sig.parameters.length then
          match sig.parameters.get? commaCount with
          | some param =>
            (match matchColonType param.documentation.data with
             | some expectedType =>
               some (.functionParameter expectedType functionName commaCount)
             | none => none)
          | none => none
        else none
      | none => none
    | none => none
  match fromFunc with
  | some ctx => ctx
  | none =>
    match classes.find? (fun c => c.name == functionName) with
    | some cls =>
      match cls.constructors with
      | some ctors =>
        if 0 < ctors.length then
          match chooseConstructor ctors commaCount with
          | some constructor =>
            if commaCount < constructor.parameters.length then
              match constructor.parameters.get? commaCount with
              | some param =>
                (match constructorExpectedType constructor param commaCount with
                 | some expectedType =>
                   .functionParameter expectedType functionName commaCount
                 | none => .identifier)
              | none => .identifier
            else .identifier
          | none => .identifier
        else .identifier
      | none => .identifier
    | none => .identifier

/-- `getCompletionContext`, with fuel threaded to the inferrer used by the
member/method branches; `none` models a request whose inference never
terminates. -/
def getCompletionContext (fuel : Nat) (doc : List String) (pos : Position)
    (classes : List ApiClass) (globalFunctions : List ApiFunction) :
    Option CompletionContext :=
  let lineText := lineAt doc pos.line
  let textBeforeCursor := lineText.data.take pos.character
  let currentWord := String.mk (wordRunAround lineText.data pos.character)
  if luaBuiltInTypes.contains (toLowerStr currentWord) then some .keyword
  else if luaKeywords.contains (toLowerStr currentWord) then some .keyword
  else if testLocalDecl textBeforeCursor then some .keyword
  else if testKeywordContext textBeforeCursor then some .keyword
  else match matchDotEnd textBeforeCursor with
  | some (objectName, pre) =>
    (match inferVariableTypeFuel fuel doc pos objectName classes globalFunctions with
     | none => none
     | some inferredType =>
       some (.memberAccess objectName (inferredType.getD objectName) pre))
  | none =>
    match matchColonEnd textBeforeCursor with
    | some (objectName, pre) =>
      (match inferVariableTypeFuel fuel doc pos objectName classes globalFunctions with
       | none => none
       | some inferredType =>
         some (.methodAccess objectName (inferredType.getD objectName) pre))
    | none =>
      match scanOpenParen 0 textBeforeCursor.reverse [] with
      | some (beforeParen, afterParen) =>
        (match trailingWord beforeParen with
         | some functionName =>
           let commaCount := afterParen.count ','
           some (callArgumentContext functionName commaCount classes globalFunctions)
         | none => some .identifier)
      | none => some .identifier

/-! ### Inheritance merging (`getClassWithInheritance`) -/

/-- Leftmost match of `` `extends\s+(\w+)` `` on a class's detail string
(no `\b` before `extends` in the source pattern). -/
def matchExtends : List Char → Option String
  | [] => none
  | l@(_ :: rest) =>
    (match stripLit "extends".data l with
     | some after =>
       (match after with
        | a :: t =>
          if isSpaceChar a then
            let (w, _) := takeWord (dropSpaces t)
            if w.isEmpty then none else some (String.mk w)
          else none
        | [] => none)
     | none => none)
    <|> matchExtends rest

/-- `getClassWithInheritance` with fuel (the source recursion follows the
`extends` chain through `findClassByName` and does not terminate on a
cyclic chain): merge the recursively-resolved base class's properties,
methods and constants in front of the class's own. -/
def getClassWithInheritanceFuel : Nat → ApiClass → List ApiClass → Option ApiClass
  | 0, _, _ => none
  | fuel + 1, cls, classes =>
    match matchExtends cls.detail.data with
    | none => some cls
    | some baseClassName =>
      match findClassByName classes baseClassName with
      | none => some cls
      | some baseClass =>
        match getClassWithInheritanceFuel fuel baseClass classes with
        | none => none
        | some baseWithInheritance =>
          some { cls with
                 properties :=
                   some (baseWithInheritance.properties.getD [] ++ cls.properties.getD []),
                 methods :=
                   some (baseWithInheritance.methods.getD [] ++ cls.methods.getD []),
                 constants :=
                   some (baseWithInheritance.constants.getD [] ++ cls.constants.getD []) }

/-! ### Completion items and `provideCompletionItems` -/

/-- The completion-item kinds used by the providers. -/
inductive CompletionItemKindT where
  | function
  | classKind
  | property
  | method
  | constant
deriving DecidableEq

/-- A completion item with the fields the source sets; `insertText` is
absent when the source leaves it unset. -/
structure CompletionItem where
  label : String
  kind : CompletionItemKindT
  detail : String
  documentation : String
  insertText : Option String
  sortText : String
  preselect : Bool
deriving DecidableEq

/-- `` `${i + 1}:<label>` `` wrapped in a snippet placeholder. -/
def snippetPlaceholder (i : Nat) (label : String) : String :=
  "$\x7b" ++ toString (i + 1) ++ ":" ++ label ++ "\x7d"

/-- The comma-joined placeholder list for a parameter list. -/
def snippetParams (params : List ApiParameter) : String :=
  String.intercalate ", "
    (params.enum.map (fun pi => snippetPlaceholder pi.1 pi.2.label))

/-- `createSnippetFromSignature` from the source. -/
def createSnippetFromSignature (signature : ApiSignature) : String :=
  let funcName := ((signature.label.splitOn "(").headD "")
  if signature.parameters.length == 0 then funcName ++ "()$0"
  else funcName ++ "(" ++ snippetParams signature.parameters ++ ")$0"

/-- The member kinds `createMemberCompletions` can be asked for. -/
inductive MemberKind where
  | property
  | method
  | constant
deriving DecidableEq

/-- `createMemberCompletions` from the source: member items without a class
prefix, sorted after normal items (`~` sort text) and never preselected. -/
def createMemberCompletions (cls : ApiClass) (memberType : MemberKind) :
    List CompletionItem :=
  match memberType with
  | .property =>
    (cls.properties.getD []).map fun prop =>
      { label := prop.name, kind := .property, detail := prop.detail,
        documentation :=
          prop.documentation ++ "\n\n" ++
            (if prop.readOnly then "*(Read-only)*" else "*(Read/write)*"),
        insertText := some prop.name, sortText := "~" ++ prop.name,
        preselect := false }
  | .method =>
    (cls.methods.getD []).map fun m =>
      { label := m.name, kind := .method, detail := m.detail,
        documentation := m.documentation,
        insertText := some
          (match m.signature with
           | some sig =>
             if 0 < sig.parameters.length then
               m.name ++ "(" ++ snippetParams sig.parameters ++ ")$0"
             else m.name ++ "()$0"
           | none => m.name ++ "()$0"),
        sortText := "~" ++ m.name, preselect := false }
  | .constant =>
    (cls.constants.getD []).map fun constant =>
      { label := constant.name, kind := .constant, detail := constant.value,
        documentation := constant.value, insertText := some constant.name,
        sortText := "~" ++ constant.name, preselect := false }

/-- The primitive-type list of the call-argument completion handler. -/
def primitiveTypes : List String :=
  ["number", "string", "boolean", "double", "int", "float"]

/-- What `provideCompletionItems` returns: either a plain item array or an
explicit `CompletionList` carrying its `isIncomplete` flag. -/
inductive CompletionResult where
  | items (items : List CompletionItem)
  | list (items : List CompletionItem) (isIncomplete : Bool)
deriving DecidableEq

/-- The constructor-invocation item offered for the expected class of a
call argument (built from the class's first declared constructor). -/
def expectedClassItem (expectedType : String) (expectedClass : ApiClass)
    (c0 : ApiConstructor) : CompletionItem :=
  { label := expectedClass.name, kind := .classKind,
    detail := expectedClass.detail ++ " (constructor)",
    documentation :=
      "Expected type: **" ++ expectedType ++ "**\n\n" ++ expectedClass.documentation,
    insertText := some
      (if 0 < c0.parameters.length then
         expectedClass.name ++ "(" ++ snippetParams c0.parameters ++ ")$0"
       else expectedClass.name ++ "()$0"),
    sortText := "!" ++ expectedClass.name, preselect := true }

/-- The item offered for a global function returning the expected class.
The detail-string arrow is the source file's literal (mojibake) bytes. -/
def expectedFunctionItem (expectedType : String) (fn : ApiFunction)
    (sig : ApiSignature) : CompletionItem :=
  { label := fn.name, kind := .function,
    detail := fn.detail ++ " â†’ " ++ expectedType,
    documentation := "Expected type: **" ++ expectedType ++ "**\n\n" ++ fn.documentation,
    insertText := some (createSnippetFromSignature sig),
    sortText := "!" ++ fn.name, preselect := true }

/-- An item of the default identifier context for a global function. -/
def identifierFunctionItem (fn : ApiFunction) : CompletionItem :=
  { label := fn.name, kind := .function, detail := fn.detail,
    documentation := fn.documentation,
    insertText :=
      (match fn.signature with
       | some sig => some (createSnippetFromSignature sig)
       | none => none),
    sortText := "~" ++ fn.name, preselect := false }

/-- An item of the default identifier context for a class (with a
constructor snippet from its first declared constructor, when any). -/
def identifierClassItem (cls : ApiClass) : CompletionItem :=
  { label := cls.name, kind := .classKind, detail := cls.detail,
    documentation := cls.documentation,
    insertText :=
      (match cls.constructors with
       | some (c0 :: _) =>
         some (if 0 < c0.parameters.length then
                 cls.name ++ "(" ++ snippetParams c0.parameters ++ ")$0"
               else cls.name ++ "()$0")
       | _ => none),
    sortText := "~" ++ cls.name, preselect := false }

/-- `provideCompletionItems`, with fuel threaded to the classifier's
inference and to the inheritance merge. -/
def provideCompletionItems (fuel : Nat) (doc : List String) (pos : Position)
    (classes : List ApiClass) (globalFunctions : List ApiFunction) :
    Option CompletionResult :=
  match getCompletionContext fuel doc pos classes globalFunctions with
  | none => none
  | some ctx =>
    match ctx with
    | .keyword => some (.items [])
    | .memberAccess _ className _ =>
      (match findClassByName classes className with
       | some cls =>
         (match getClassWithInheritanceFuel fuel cls classes with
          | none => none
          | some clsWithInheritance =>
            some (.items (createMemberCompletions clsWithInheritance .property ++
              createMemberCompletions clsWithInheritance .constant)))
       | none => some (.items []))
    | .methodAccess _ className _ =>
      (match findClassByName classes className with
       | some cls =>
         (match getClassWithInheritanceFuel fuel cls classes with
          | none => none
          | some clsWithInheritance =>
            some (.items (createMemberCompletions clsWithInheritance .method)))
       | none => some (.items []))
    | .functionParameter expectedType _ _ =>
      if primitiveTypes.contains (toLowerStr expectedType) then
        some (.list [] false)
      else
        let ctorItems : List CompletionItem :=
          match findClassByName classes expectedType with
          | some expectedClass =>
            (match expectedClass.constructors with
             | some (c0 :: _) => [expectedClassItem expectedType expectedClass c0]
             | _ => [])
          | none => []
        let fnItems : List CompletionItem :=
          globalFunctions.filterMap fun fn =>
            match fn.signature with
            | some sig =>
              (match sig.returns with
               | some r =>
                 if firstCommaTok r == expectedType then
                   some (expectedFunctionItem expectedType fn sig)
                 else none
               | none => none)
            | none => none
        some (.items (ctorItems ++ fnItems))
    | .identifier =>
      some (.items (globalFunctions.map identifierFunctionItem ++
        classes.map identifierClassItem))

/-! ### `provideSignatureHelp` -/

/-- `vscode.SignatureInformation` as the source populates it. -/
structure SignatureInformation where
  label : String
  documentation : String
  parameters : List ApiParameter
deriving DecidableEq

/-- `vscode.SignatureHelp` as the source populates it. -/
structure SignatureHelp where
  signatures : List SignatureInformation
  activeSignature : Nat
  activeParameter : Nat
deriving DecidableEq

/-- The signature built from a function's (or method's) `ApiSignature`. -/
def signatureOfApiSignature (sig : ApiSignature) : SignatureInformation :=
  ⟨sig.label, sig.documentation, sig.parameters⟩

/-- The signature built from a constructor descriptor. -/
def signatureOfConstructor (ct : ApiConstructor) : SignatureInformation :=
  ⟨ct.label, ct.documentation, ct.parameters⟩

/-- The signature contributed by a global function (none when the
descriptor lacks a signature, mirroring the `if (fn.signature)` guard). -/
def functionSignatureInfo (fn : ApiFunction) : Option SignatureInformation :=
  match fn.signature with
  | some sig => some (signatureOfApiSignature sig)
  | none => none

/-- The signature contributed by a method (none without a signature). -/
def methodSignatureInfo (m : ApiMethod) : Option SignatureInformation :=
  match m.signature with
  | some sig => some (signatureOfApiSignature sig)
  | none => none

/-- The signatures contributed by one class: all its constructors, then all
its methods. -/
def classSignatures (cls : ApiClass) : List SignatureInformation :=
  (cls.constructors.getD []).map signatureOfConstructor ++
    (cls.methods.getD []).filterMap methodSignatureInfo

/-- `provideSignatureHelp` (final revision): every global function's
signature, then per class every constructor's and every method's signature,
with active signature and parameter fixed at 0.  The document and position
arguments are received from the editor but never read. -/
def provideSignatureHelp (_doc : List String) (_pos : Position)
    (globalFunctions : List ApiFunction) (classes : List ApiClass) : SignatureHelp :=
  ⟨globalFunctions.filterMap functionSignatureInfo ++
      (classes.map classSignatures).flatten, 0, 0⟩

/-- The call target under the cursor, extracted the way the classifier's
call-argument branch does (innermost open parenthesis, then the trailing
word before it). -/
def callTargetOf (textBeforeCursor : List Char) : Option String :=
  match scanOpenParen 0 textBeforeCursor.reverse [] with
  | some (beforeParen, _) => trailingWord beforeParen
  | none => none

/-! ### `provideHover` -/

/-- The parameter bullet list shared by function and method hovers. -/
def hoverParams (params : List ApiParameter) : String :=
  String.join (params.map fun p => "- `" ++ p.label ++ "`: " ++ p.documentation ++ "\n")

/-- The part of a function hover after the heading name. -/
def functionHoverBody (fn : ApiFunction) : String :=
  "\n\n" ++ fn.documentation ++ "\n\n" ++
    (match fn.signature with
     | some sig =>
       "**Signature:**\n```lua\n" ++ sig.label ++ "\n```\n\n" ++
         (if 0 < sig.parameters.length then
            "**Parameters:**\n" ++ hoverParams sig.parameters ++ "\n"
          else "") ++
         (match sig.returns with
          | some r => "**Returns:** " ++ r ++ "\n"
          | none => "")
     | none => "")

/-- `createFunctionHover` (final revision). -/
def createFunctionHover (fn : ApiFunction) : String :=
  "### " ++ fn.name ++ functionHoverBody fn

/-- The part of a class hover after the heading name. -/
def classHoverBody (cls : ApiClass) : String :=
  "\n\n" ++ cls.documentation ++ "\n\n" ++
    (match cls.constructors with
     | some (c0 :: rest) =>
       "**Constructors:**\n" ++
         String.join ((c0 :: rest).map fun ct =>
           "```lua\n" ++ ct.label ++ "\n```\n" ++ ct.documentation ++ "\n\n")
     | _ => "") ++
    (if 0 < (cls.properties.getD []).length then
       "**Properties:** " ++ toString (cls.properties.getD []).length ++ "\n\n"
     else "") ++
    (if 0 < (cls.methods.getD []).length then
       "**Methods:** " ++ toString (cls.methods.getD []).length ++ "\n\n"
     else "") ++
    (if 0 < (cls.constants.getD []).length then
       "**Constants:** " ++ toString (cls.constants.getD []).length ++ "\n\n"
     else "")

/-- `createClassHover` (final revision, with the constants count). -/
def createClassHover (cls : ApiClass) : String :=
  "### " ++ cls.name ++ classHoverBody cls

/-- The multi-return usage example appended by `createMethodHover`. -/
def methodUsageExample (className mname returns : String) : String :=
  "**Usage Example:**\n```lua\n" ++
    (if mname == "GetNext" then
       let varName :=
         if className == "SelectionList" then "obj"
         else if className == "CadObjectGroup" then "member"
         else if className == "CadObjectList" then "object"
         else "item"
       "local " ++ varName ++ ", pos = " ++ toLowerStr className ++ ":GetNext(pos)\n" ++
         "-- " ++ varName ++ " is the object at current position\n" ++
         "-- pos is the new position (or nil if at end)\n"
     else if mname == "GetPrev" then
       let varName := if className == "SelectionList" then "obj" else "item"
       "local " ++ varName ++ ", pos = " ++ toLowerStr className ++ ":GetPrev(pos)\n" ++
         "-- " ++ varName ++ " is the object at current position\n" ++
         "-- pos is the new position (or nil if at start)\n"
     else
       let rets := (returns.splitOn ",").map trimStr
       let varNames :=
         String.intercalate ", " (rets.enum.map fun ri => "val" ++ toString (ri.1 + 1))
       "local " ++ varNames ++ " = " ++ toLowerStr className ++ ":" ++ mname ++ "(...)\n") ++
    "```\n"

/-- The part of a method hover after the heading. -/
def methodHoverBody (className : String) (m : ApiMethod) : String :=
  "\n\n" ++ m.documentation ++ "\n\n" ++
    (match m.signature with
     | some sig =>
       "**Signature:**\n```lua\n" ++ sig.label ++ "\n```\n\n" ++
         (if 0 < sig.parameters.length then
            "**Parameters:**\n" ++ hoverParams sig.parameters ++ "\n"
          else "") ++
         (match sig.returns with
          | some r =>
            "**Returns:** " ++ r ++ "\n\n" ++
              (if r.data.any (fun c => c == ',') then
                 methodUsageExample className m.name r
               else "")
          | none => "")
     | none => "")

/-- `createMethodHover` (final revision, with the usage example for
multi-value returns). -/
def createMethodHover (className : String) (m : ApiMethod) : String :=
  "### " ++ className ++ ":" ++ m.name ++ methodHoverBody className m

/-- The part of a property hover after the heading. -/
def propertyHoverBody (prop : ApiProperty) : String :=
  "\n\n" ++ prop.documentation ++
    "\n\n**Type:** " ++ prop.detail ++ "\n\n**Access:** " ++
    (if prop.readOnly then "Read-only" else "Read/write")

/-- `createPropertyHover`. -/
def createPropertyHover (className : String) (prop : ApiProperty) : String :=
  "### " ++ className ++ "." ++ prop.name ++ propertyHoverBody prop

/-- `createConstantHover`. -/
def createConstantHover (className : String) (constant : ApiConstant) : String :=
  "### " ++ className ++ "." ++ constant.name ++ ("\n\n" ++ constant.value)

/-- The per-class loop of `provideHover`: for each class in order, its
methods, then its properties, then its constants. -/
def hoverScanClasses : List ApiClass → String → Option String
  | [], _ => none
  | cls :: rest, word =>
    match (cls.methods.getD []).find? (fun m => m.name == word) with
    | some m => some (createMethodHover cls.name m)
    | none =>
      match (cls.properties.getD []).find? (fun p => p.name == word) with
      | some prop => some (createPropertyHover cls.name prop)
      | none =>
        match (cls.constants.getD []).find? (fun c => c.name == word) with
        | some constant => some (createConstantHover cls.name constant)
        | none => hoverScanClasses rest word

/-- The exact-name hover lookup on an extracted word: global functions
first, then classes, then each class's methods/properties/constants. -/
def hoverForWord (word : String) (globalFunctions : List ApiFunction)
    (classes : List ApiClass) : Option String :=
  match globalFunctions.find? (fun f => f.name == word) with
  | some globalFn => some (createFunctionHover globalFn)
  | none =>
    match classes.find? (fun c => c.name == word) with
    | some cls => some (createClassHover cls)
    | none => hoverScanClasses classes word

/-- `provideHover` (final revision): extract the word at the cursor and run
the exact-name lookup. -/
def provideHover (doc : List String) (pos : Position)
    (globalFunctions : List ApiFunction) (classes : List ApiClass) : Option String :=
  hoverForWord (String.mk (wordRunAround (lineAt doc pos.line).data pos.character))
    globalFunctions classes

/-- `word` names some global function. -/
def wordInFunctions (fs : List ApiFunction) (w : String) : Bool :=
  fs.any (fun f => f.name == w)

/-- `word` names some class. -/
def wordInClasses (cs : List ApiClass) (w : String) : Bool :=
  cs.any (fun c => c.name == w)

/-- `word` names some class's method. -/
def wordInMethods (cs : List ApiClass) (w : String) : Bool :=
  cs.any (fun c => (c.methods.getD []).any (fun m => m.name == w))

/-- `word` names some class's property. -/
def wordInProperties (cs : List ApiClass) (w : String) : Bool :=
  cs.any (fun c => (c.properties.getD []).any (fun p => p.name == w))

/-- `word` names some class's constant. -/
def wordInConstants (cs : List ApiClass) (w : String) : Bool :=
  cs.any (fun c => (c.constants.getD []).any (fun k => k.name == w))

/-- `chainFrom cs c bs` says `bs` is the (entire) chain of base classes the
`extends` tokens of the details resolve to, starting at `c`: each link's
`extends <Name>` finds the next element in the catalog, and the last
element's `extends` token is absent or names a class missing from the
catalog. -/
def chainFrom (cs : List ApiClass) : ApiClass → List ApiClass → Prop
  | c, [] =>
    (match matchExtends c.detail.data with
     | none => True
     | some bn => findClassByName cs bn = none)
  | c, b :: rest =>
    (match matchExtends c.detail.data with
     | none => False
     | some bn => findClassByName cs bn = some b) ∧
      chainFrom cs b rest

/-- The whole chain's properties, deepest base first, the class's own
last. -/
def chainProperties (c : ApiClass) (bs : List ApiClass) : List ApiProperty :=
  (bs.reverse.map (fun b => b.properties.getD [])).flatten ++ c.properties.getD []

/-- The whole chain's methods, deepest base first. -/
def chainMethods (c : ApiClass) (bs : List ApiClass) : List ApiMethod :=
  (bs.reverse.map (fun b => b.methods.getD [])).flatten ++ c.methods.getD []

/-- The whole chain's constants, deepest base first. -/
def chainConstants (c : ApiClass) (bs : List ApiClass) : List ApiConstant :=
  (bs.reverse.map (fun b => b.constants.getD [])).flatten ++ c.constants.getD []

/-- The class with its member lists replaced by the chain-merged ones. -/
def mergedClass (c : ApiClass) (bs : List ApiClass) : ApiClass :=
  { c with properties := some (chainProperties c bs),
           methods := some (chainMethods c bs),
           constants := some (chainConstants c bs) }

/-- What the inheritance merge produces along a chain: the class unchanged
when the chain is empty, the merged class otherwise. -/
def chainResult (c : ApiClass) : List ApiClass → ApiClass
  | [] => c
  | b :: rest => mergedClass c (b :: rest)

/-- The sample base class used by the C10 witness. -/
def sampleBase : ApiClass :=
  ⟨"Base", "class", "class Base", "", none,
    some [⟨"P0", "p", "number", "", true⟩],
    some [⟨"M0", "method", "", "", some ⟨"M0()", "", [], none⟩⟩],
    some [⟨"K0", "0"⟩]⟩

/-- The sample derived class (detail `class Der extends Base`) used by the
C10 witness. -/
def sampleDer : ApiClass :=
  ⟨"Der", "class", "class Der extends Base", "", none,
    some [⟨"P1", "p", "number", "", true⟩],
    some [⟨"M1", "method", "", "", some ⟨"M1()", "", [], none⟩⟩],
    none⟩

/-- A sample global function whose second parameter's documentation carries
the `: Type` token `Vector2D` (for the C6 witness). -/
def fooDocumented : ApiFunction :=
  ⟨"Foo", "function", "", "",
    some ⟨"Foo(a, vec)", "",
      [⟨"a", "first"⟩, ⟨"vec", "vec: Vector2D - the vector"⟩], none⟩⟩

/-- The same function with an untyped documentation string on the second
parameter (for the C6 witness). -/
def fooUndocumented : ApiFunction :=
  ⟨"Foo", "function", "", "",
    some ⟨"Foo(a, vec)", "", [⟨"a", "first"⟩, ⟨"vec", "the vector"⟩], none⟩⟩

/-- A sample class whose constructor label types its second parameter
`y: number` (for the C6 witness). -/
def barClass : ApiClass :=
  ⟨"Bar", "class", "class Bar", "",
    some [⟨"Bar(x: number, y: number)", "", [⟨"x", "the x"⟩, ⟨"y", "the y"⟩]⟩],
    none, none, none⟩

/-- The variable name occurs, as a raw character substring, somewhere in
the line.  Every binding pattern and guard of `inferVariableType`
interpolates the variable name literally, so a line without any occurrence
can never match (proved below). -/
def occursIn (v : List Char) : List Char → Bool
  | [] => v.isEmpty
  | l@(_ :: rest) => (stripLit v l).isSome || occursIn v rest

/-! ### Generic lemmas about the backward scan -/

/-- A line without an occurrence starts with no occurrence. -/
theorem occursIn_stripLit_none {v l : List Char} (h : occursIn v l = false) :
    stripLit v l = none := by
  cases l with
  | nil =>
    cases v with
    | nil => simp [occursIn, List.isEmpty] at h
    | cons a t => rfl
  | cons c rest =>
    simp only [occursIn, Bool.or_eq_false_iff] at h
    cases hs : stripLit v (c :: rest) with
    | none => rfl
    | some r => rw [hs] at h; simp at h

/-- Dropping the first character preserves non-occurrence. -/
theorem occursIn_tail {v : List Char} {c : Char} {rest : List Char}
    (h : occursIn v (c :: rest) = false) : occursIn v rest = false := by
  simp only [occursIn, Bool.or_eq_false_iff] at h
  exact h.2

/-- `dropWhile` yields a suffix, preserving non-occurrence. -/
theorem occursIn_dropWhile {v : List Char} (p : Char → Bool) :
    ∀ {l : List Char}, occursIn v l = false → occursIn v (l.dropWhile p) = false := by
  intro l
  induction l with
  | nil => intro h; simpa using h
  | cons c rest ih =>
    intro h
    rw [List.dropWhile_cons]
    by_cases hp : p c = true
    · simp only [hp, if_true]
      exact ih (occursIn_tail h)
    · simp only [hp, if_false]
      exact h

/-- The remainder of a successful literal match is a suffix, preserving
non-occurrence. -/
theorem occursIn_stripLit_rest (v : List Char) :
    ∀ (p l r : List Char), occursIn v l = false → stripLit p l = some r →
      occursIn v r = false := by
  intro p
  induction p with
  | nil =>
    intro l r h hs
    simp only [stripLit, Option.some.injEq] at hs
    subst hs
    exact h
  | cons a ps ih =>
    intro l r h hs
    cases l with
    | nil => simp [stripLit] at hs
    | cons c cs =>
      simp only [stripLit] at hs
      by_cases hac : (a == c) = true
      · rw [if_pos hac] at hs
        exact ih cs r (occursIn_tail h) hs
      · rw [if_neg hac] at hs
        cases hs

/-- A variable-anchored pattern fails on a line without the variable. -/
theorem varThen_none {α : Type} (v : List Char) (f : List Char → Option α)
    {l : List Char} (h : occursIn v l = false) : varThen v f l = none := by
  unfold varThen
  rw [occursIn_stripLit_none h]

/-- A `local`-prefixed variable pattern fails on a line without the
variable. -/
theorem localSpaceThen_none {α : Type} (v : List Char) (f : List Char → Option α)
    (hf : ∀ l', occursIn v l' = false → f l' = none) :
    ∀ {l : List Char}, occursIn v l = false → localSpaceThen f l = none := by
  intro l h
  unfold localSpaceThen
  cases hloc : stripLit "local".data l with
  | none => rfl
  | some after =>
    have ha : occursIn v after = false := occursIn_stripLit_rest v _ l after h hloc
    cases after with
    | nil => rfl
    | cons a t =>
      have hd : occursIn v (dropSpaces t) = false :=
        occursIn_dropWhile _ (occursIn_tail ha)
      simp only [hf _ hd, ite_self]

/-- Pattern 2 fails on a line without the variable. -/
theorem matchAssignment_none (v : List Char) :
    ∀ (l : List Char) (pw : Bool), occursIn v l = false →
      matchAssignment v pw l = none := by
  intro l
  induction l with
  | nil => intro pw h; rfl
  | cons c rest ih =>
    intro pw h
    simp only [matchAssignment, varThen_none v _ h,
      ih (isWordChar c) (occursIn_tail h), ite_self, Option.none_orElse]

/-- Pattern 3 fails on a line without the variable. -/
theorem matchPropertyAssignment_none (v : List Char) :
    ∀ (l : List Char) (pw : Bool), occursIn v l = false →
      matchPropertyAssignment v pw l = none := by
  intro l
  induction l with
  | nil => intro pw h; rfl
  | cons c rest ih =>
    intro pw h
    simp only [matchPropertyAssignment, varThen_none v _ h,
      ih (isWordChar c) (occursIn_tail h), ite_self, Option.none_orElse]

/-- Pattern 1 fails on a line without the variable. -/
theorem matchLocalAssignment_none (v : List Char) :
    ∀ (l : List Char), occursIn v l = false → matchLocalAssignment v l = none := by
  intro l
  induction l with
  | nil => intro h; rfl
  | cons c rest ih =>
    intro h
    simp only [matchLocalAssignment,
      localSpaceThen_none v _ (fun l' h' => varThen_none v _ h') h,
      ih (occursIn_tail h), Option.none_orElse]

/-- Pattern 4 fails on a line without the variable. -/
theorem matchFunctionAssignment_none (v : List Char) :
    ∀ (l : List Char) (pw : Bool), occursIn v l = false →
      matchFunctionAssignment v pw l = none := by
  intro l
  induction l with
  | nil => intro pw h; rfl
  | cons c rest ih =>
    intro pw h
    simp only [matchFunctionAssignment,
      localSpaceThen_none v _ (fun l' h' => varThen_none v _ h') h,
      varThen_none v _ h, ih (isWordChar c) (occursIn_tail h), ite_self,
      Option.none_orElse]

/-- Pattern 4b fails on a line without the variable. -/
theorem matchMethodAssignment_none (v : List Char) :
    ∀ (l : List Char) (pw : Bool), occursIn v l = false →
      matchMethodAssignment v pw l = none := by
  intro l
  induction l with
  | nil => intro pw h; rfl
  | cons c rest ih =>
    intro pw h
    simp only [matchMethodAssignment,
      localSpaceThen_none v _ (fun l' h' => varThen_none v _ h') h,
      varThen_none v _ h, ih (isWordChar c) (occursIn_tail h), ite_self,
      Option.none_orElse]

/-- The `.*\b<var>\b.*=` test fails on input without the variable. -/
theorem existsVarThenEq_false (v : List Char) :
    ∀ (l : List Char) (pw : Bool), occursIn v l = false →
      existsVarThenEq v pw l = false := by
  intro l
  induction l with
  | nil => intro pw h; rfl
  | cons c rest ih =>
    intro pw h
    simp only [existsVarThenEq, occursIn_stripLit_none h,
      ih (isWordChar c) (occursIn_tail h), ite_self, Bool.or_false]

/-- The `notFirstVarAssign` guard fails on a line without the variable. -/
theorem guardAnyComma_false (v : List Char) :
    ∀ (l : List Char), occursIn v l = false → guardAnyComma v l = false := by
  intro l
  induction l with
  | nil => intro h; rfl
  | cons c rest ih =>
    intro h
    have hrec := ih (occursIn_tail h)
    have hafter : occursIn v (dropSpaces ((c :: rest).dropWhile isWordChar)) = false :=
      occursIn_dropWhile _ (occursIn_dropWhile _ h)
    simp only [guardAnyComma, takeWord, hrec, Bool.or_false]
    by_cases hw : isWordChar c = true
    · rw [if_pos hw]
      split
      · next t3 heq =>
          rw [heq] at hafter
          exact existsVarThenEq_false v t3 false (occursIn_tail hafter)
      · rfl
    · rw [if_neg hw]

/-- The `notFirstVarLocal` guard fails on a line without the variable. -/
theorem guardLocalComma_false (v : List Char) :
    ∀ (l : List Char), occursIn v l = false → guardLocalComma v l = false := by
  intro l
  induction l with
  | nil => intro h; rfl
  | cons c rest ih =>
    intro h
    have hrec := ih (occursIn_tail h)
    simp only [guardLocalComma, hrec, Bool.or_false]
    cases hloc : stripLit "local".data (c :: rest) with
    | none => rfl
    | some after =>
      have ha : occursIn v after = false :=
        occursIn_stripLit_rest v _ _ after h hloc
      cases after with
      | nil => rfl
      | cons a t =>
        have ht : occursIn v
            (dropSpaces ((dropSpaces t).dropWhile isWordChar)) = false :=
          occursIn_dropWhile _ (occursIn_dropWhile _
            (occursIn_dropWhile _ (occursIn_tail ha)))
        simp only [takeWord]
        by_cases hsp : isSpaceChar a = true
        · rw [if_pos hsp]
          split
          · rfl
          · split
            · next t3 heq =>
                rw [heq] at ht
                exact existsVarThenEq_false v t3 false (occursIn_tail ht)
            · rfl
        · rw [if_neg hsp]

/-- Pattern 5 fails on a line without the variable. -/
theorem testDeclarationStop_false (v : List Char) :
    ∀ (l : List Char) (pw : Bool), occursIn v l = false →
      testDeclarationStop v pw l = false := by
  intro l
  induction l with
  | nil => intro pw h; rfl
  | cons c rest ih =>
    intro pw h
    have hrec := ih (isWordChar c) (occursIn_tail h)
    have hkw : ∀ kw : List Char,
        (match stripLit kw (c :: rest) with
         | some after =>
           (match after with
            | a :: t =>
              if isSpaceChar a then
                match stripLit v (dropSpaces t) with
                | some tail =>
                  (match tail with
                   | [] => true
                   | b :: _ => !isWordChar b)
                | none => false
              else false
            | [] => false)
         | none => false) = false := by
      intro kw
      cases hk : stripLit kw (c :: rest) with
      | none => rfl
      | some after =>
        have ha : occursIn v after = false :=
          occursIn_stripLit_rest v kw _ after h hk
        cases after with
        | nil => rfl
        | cons a t =>
          have hd : occursIn v (dropSpaces t) = false :=
            occursIn_dropWhile _ (occursIn_tail ha)
          simp only [occursIn_stripLit_none hd, ite_self]
    simp only [testDeclarationStop, hkw, Bool.or_self, ite_self, Bool.false_or, hrec]

/-- A line without any occurrence of the variable name neither matches any
binding pattern nor triggers any guard: the scan passes over it. -/
theorem processLineOn_noOccurrence (recur :
    List String → Position → String → List ApiClass → List ApiFunction →
      Option (Option String))
    (doc : List String) (cs : List ApiClass) (fs : List ApiFunction)
    (varName : String) (ln : Nat) (line : List Char)
    (h : occursIn varName.data line = false) :
    processLineOn recur doc cs fs varName ln line = .noMatch := by
  simp only [processLineOn, guardLocalComma_false _ _ h, guardAnyComma_false _ _ h,
    matchLocalAssignment_none _ _ h, matchAssignment_none _ _ _ h,
    matchPropertyAssignment_none _ _ _ h, matchFunctionAssignment_none _ _ _ h,
    matchMethodAssignment_none _ _ _ h, testDeclarationStop_false _ _ _ h,
    Bool.false_eq_true, if_false]

/-- Document-level version of `processLineOn_noOccurrence`. -/
theorem processLine_noOccurrence (recur :
    List String → Position → String → List ApiClass → List ApiFunction →
      Option (Option String))
    (doc : List String) (cs : List ApiClass) (fs : List ApiFunction)
    (varName : String) (ln : Nat)
    (h : occursIn varName.data (lineAt doc ln).data = false) :
    processLine recur doc cs fs varName ln = .noMatch := by
  unfold processLine
  exact processLineOn_noOccurrence recur doc cs fs varName ln _ h

/-- An empty line matches none of the binding patterns. -/
theorem processLineOn_nil (recur :
    List String → Position → String → List ApiClass → List ApiFunction →
      Option (Option String))
    (doc : List String) (cs : List ApiClass) (fs : List ApiFunction)
    (v : String) (ln : Nat) :
    processLineOn recur doc cs fs v ln [] = .noMatch := rfl

/-- An empty document line contributes nothing to the scan. -/
theorem processLine_empty (recur :
    List String → Position → String → List ApiClass → List ApiFunction →
      Option (Option String))
    (doc : List String) (cs : List ApiClass) (fs : List ApiFunction)
    (v : String) (ln : Nat) (h : lineAt doc ln = "") :
    processLine recur doc cs fs v ln = .noMatch := by
  unfold processLine
  rw [h]
  exact processLineOn_nil recur doc cs fs v ln

/-- Every line number in the window is at most its top line. -/
theorem mem_downFrom_le {ln : Nat} :
    ∀ {hi n : Nat}, ln ∈ downFrom hi n → ln ≤ hi := by
  intro hi n
  induction n generalizing hi with
  | zero =>
    intro h
    simp only [downFrom, List.mem_singleton] at h
    omega
  | succ m ih =>
    intro h
    simp only [downFrom, List.mem_cons] at h
    rcases h with h | h
    · omega
    · have := ih h
      omega

/-- A scan over lines that all either fail to match or are skipped by a
guard ends with `null`. -/
theorem inferLoop_all_pass (pl : Nat → StepResult) (l : List Nat)
    (h : ∀ ln ∈ l, pl ln = .noMatch ∨ pl ln = .skipLine) :
    inferLoop pl l = some none := by
  induction l with
  | nil => rfl
  | cons a t ih =>
    rcases h a (List.mem_cons_self a t) with ha | ha <;>
      simp only [inferLoop, ha] <;>
      exact ih fun ln hln => h ln (List.mem_cons_of_mem a hln)

/-- If every line strictly between `j` and the top of the window fails to
match and line `j` (inside the window) produces a type, the scan returns
that type. -/
theorem inferLoop_downFrom_found (pl : Nat → StepResult) (t : String) :
    ∀ (n hi j : Nat), j ≤ hi → hi - j ≤ n →
      (∀ ln, j < ln → ln ≤ hi → pl ln = .noMatch) → pl j = .found t →
      inferLoop pl (downFrom hi n) = some (some t) := by
  intro n
  induction n with
  | zero =>
    intro hi j hj hn _ hfound
    have : j = hi := by omega
    subst this
    simp only [downFrom, inferLoop, hfound]
  | succ m ih =>
    intro hi j hj hn hmid hfound
    by_cases hcase : j = hi
    · subst hcase
      simp only [downFrom, inferLoop, hfound]
    · have hlt : j < hi := by omega
      have htop := hmid hi hlt (Nat.le_refl hi)
      simp only [downFrom, inferLoop, htop]
      exact ih (hi - 1) j (by omega) (by omega)
        (fun ln h1 h2 => hmid ln h1 (by omega)) hfound

/-- If every line strictly between `j` and the top of the window fails to
match and line `j` (inside the window) is a shadowing declaration, the scan
stops with `null`. -/
theorem inferLoop_downFrom_stop (pl : Nat → StepResult) :
    ∀ (n hi j : Nat), j ≤ hi → hi - j ≤ n →
      (∀ ln, j < ln → ln ≤ hi → pl ln = .noMatch) → pl j = .stopSearch →
      inferLoop pl (downFrom hi n) = some none := by
  intro n
  induction n with
  | zero =>
    intro hi j hj hn _ hstop
    have : j = hi := by omega
    subst this
    simp only [downFrom, inferLoop, hstop]
  | succ m ih =>
    intro hi j hj hn hmid hstop
    by_cases hcase : j = hi
    · subst hcase
      simp only [downFrom, inferLoop, hstop]
    · have hlt : j < hi := by omega
      have htop := hmid hi hlt (Nat.le_refl hi)
      simp only [downFrom, inferLoop, htop]
      exact ih (hi - 1) j (by omega) (by omega)
        (fun ln h1 h2 => hmid ln h1 (by omega)) hstop

/-- A lower bound for window membership. -/
theorem mem_downFrom_ge {ln : Nat} :
    ∀ {hi n : Nat}, ln ∈ downFrom hi n → hi - n ≤ ln := by
  intro hi n
  induction n generalizing hi with
  | zero =>
    intro h
    simp only [downFrom, List.mem_singleton] at h
    omega
  | succ m ih =>
    intro h
    simp only [downFrom, List.mem_cons] at h
    rcases h with h | h
    · omega
    · have := ih h
      omega

/-! ### Step lemmas for the scenario lines of the claims.

Each is proved by exhibiting the residual form of `processLineOn` on the
concrete line text: all pattern matchers evaluate definitionally, leaving
only the catalog lookups (and, for the self-referential line, the recursive
call) symbolic. -/

/-- On the line `x = x.Prop`, pattern 3 (`propertyAssignment`) matches with
object `x` — the variable being inferred itself — and the step's outcome is
decided by the recursive inference of `x` at column 0 of the same line. -/
theorem processLineOn_selfRef (recur :
    List String → Position → String → List ApiClass → List ApiFunction →
      Option (Option String))
    (doc : List String) (cs : List ApiClass) (fs : List ApiFunction) (ln : Nat)
    (h : recur doc ⟨ln, 0⟩ "x" cs fs = none) :
    processLineOn recur doc cs fs "x" ln ("x = x.Prop".data) = .outOfFuel := by
  have e : processLineOn recur doc cs fs "x" ln ("x = x.Prop".data) =
      (match recur doc ⟨ln, 0⟩ "x" cs fs with
       | none => StepResult.outOfFuel
       | some none => StepResult.noMatch
       | some (some objectType) =>
         match lookupPropertyClass cs objectType "Prop" with
         | some t => StepResult.found t
         | none => StepResult.noMatch) := rfl
  rw [e, h]

/-- On the line `x = B()`, pattern 2 matches capturing `B`; the step yields
`B` as soon as `B` is a known class. -/
theorem processLineOn_rebind (recur :
    List String → Position → String → List ApiClass → List ApiFunction →
      Option (Option String))
    (doc : List String) (cs : List ApiClass) (fs : List ApiFunction) (ln : Nat)
    (hB : isKnownClass cs "B" = true) :
    processLineOn recur doc cs fs "x" ln ("x = B()".data) = .found "B" := by
  have e : processLineOn recur doc cs fs "x" ln ("x = B()".data) =
      (if isKnownClass cs "B" then StepResult.found "B"
       else match lookupFunctionReturnClass cs fs "B" with
         | some t => StepResult.found t
         | none => StepResult.noMatch) := rfl
  rw [e, if_pos hB]

/-- On the line `local first, second = Foo()`, inferring `first`: patterns
1 and 2 capture `Foo` (not a class), pattern 4 captures `Foo` and resolves
through the global-function return type. -/
theorem processLineOn_firstSlot (recur :
    List String → Position → String → List ApiClass → List ApiFunction →
      Option (Option String))
    (doc : List String) (cs : List ApiClass) (fs : List ApiFunction) (ln : Nat)
    (hFoo : isKnownClass cs "Foo" = false)
    (hlook : lookupFunctionReturnClass cs fs "Foo" = some "Bar") :
    processLineOn recur doc cs fs "first" ln ("local first, second = Foo()".data) =
      .found "Bar" := by
  have e : processLineOn recur doc cs fs "first" ln
        ("local first, second = Foo()".data) =
      (if isKnownClass cs "Foo" then StepResult.found "Foo"
       else if isKnownClass cs "Foo" then StepResult.found "Foo"
       else match lookupFunctionReturnClass cs fs "Foo" with
         | some t => StepResult.found t
         | none => StepResult.noMatch) := rfl
  rw [e, hlook, hFoo]
  simp

/-- On the line `local first, second = Foo()`, inferring `second`: the
`notFirstVarLocal` guard fires (`second` follows the separating comma), so
the whole statement is skipped. -/
theorem processLineOn_secondSlot (recur :
    List String → Position → String → List ApiClass → List ApiFunction →
      Option (Option String))
    (doc : List String) (cs : List ApiClass) (fs : List ApiFunction) (ln : Nat) :
    processLineOn recur doc cs fs "second" ln
      ("local first, second = Foo()".data) = .skipLine := rfl

/-- A `for x in ...` line stops the backward search for `x`. -/
theorem processLineOn_forDecl (recur :
    List String → Position → String → List ApiClass → List ApiFunction →
      Option (Option String))
    (doc : List String) (cs : List ApiClass) (fs : List ApiFunction) (ln : Nat) :
    processLineOn recur doc cs fs "x" ln ("for x in list do".data) =
      .stopSearch := rfl

/-- A `function x(...)` line stops the backward search for `x`. -/
theorem processLineOn_functionDecl (recur :
    List String → Position → String → List ApiClass → List ApiFunction →
      Option (Option String))
    (doc : List String) (cs : List ApiClass) (fs : List ApiFunction) (ln : Nat) :
    processLineOn recur doc cs fs "x" ln ("function x(a)".data) =
      .stopSearch := rfl

/-! ### Claim C1 -/

/-- Claim C1 (the code violates it): on the one-line document
`x = x.Prop`, inferring `x` at any column of line 0 exhausts every fuel
bound, for every catalog — the recursion of the property-chain pattern
re-enters the same line at `Position(lineNum, 0)` (the window starts at the
current line, so the line re-includes itself) and never returns.  Thus the
backward type inferrer does not terminate on self-referential binding
lines, contrary to the claim. -/
theorem inferSelfReferenceDiverges (fuel : Nat) :
    ∀ (ch : Nat) (cs : List ApiClass) (fs : List ApiFunction),
      inferVariableTypeFuel fuel ["x = x.Prop"] ⟨0, ch⟩ "x" cs fs = none := by
  induction fuel with
  | zero => intro ch cs fs; rfl
  | succ n ih =>
    intro ch cs fs
    have hrec : (fun d p v c f => inferVariableTypeFuel n d p v c f)
        ["x = x.Prop"] (⟨0, 0⟩ : Position) "x" cs fs = none := ih 0 cs fs
    have hstep := processLineOn_selfRef
      (fun d p v c f => inferVariableTypeFuel n d p v c f) ["x = x.Prop"] cs fs 0 hrec
    have hpl : processLine (fun d p v c f => inferVariableTypeFuel n d p v c f)
        ["x = x.Prop"] cs fs "x" 0 = .outOfFuel := hstep
    show inferLoop
      (processLine (fun d p v c f => inferVariableTypeFuel n d p v c f)
        ["x = x.Prop"] cs fs "x") [0] = none
    simp only [inferLoop, hpl]

/-! ### Claim C2 -/

/-- Counterexample to claim C2 as stated: with `local x = A()` on line 0
and `x = B()` on line 1 (both `A` and `B` known classes), a query 101 lines
after the rebinding falls outside the 100-line backward window and infers
`null`, not `B`.  (Fuel 1 and fuel 7 agree: no recursion occurs.) -/
theorem mostRecentBindingWindowCounterexample :
    inferVariableTypeFuel 1 (["local x = A()", "x = B()"] ++ List.replicate 101 "")
        ⟨102, 0⟩ "x"
        [⟨"A", "class", "", "", none, none, none, none⟩,
         ⟨"B", "class", "", "", none, none, none, none⟩] [] = some none ∧
      inferVariableTypeFuel 7 (["local x = A()", "x = B()"] ++ List.replicate 101 "")
        ⟨102, 0⟩ "x"
        [⟨"A", "class", "", "", none, none, none, none⟩,
         ⟨"B", "class", "", "", none, none, none, none⟩] [] ≠ some (some "B") := by
  constructor
  · rfl
  · decide

/-- Claim C2 (amended with the backward window): in a buffer whose line `i`
is `local x = A()`, whose later line `j` is `x = B()` (both `A` and `B`
known classes), and whose lines strictly between `j` and the query never
mention `x`, inferring `x` at any position on or after line `j` *and at
most 100 lines below it* yields `B` — the backward search stops at the most
recent line producing a resolved type (lines below `j` are arbitrary). -/
theorem mostRecentBindingWins (fuel : Nat) (doc : List String)
    (i j q ch : Nat) (cs : List ApiClass) (fs : List ApiFunction)
    (hij : i < j) (hjq : j ≤ q) (hwin : q ≤ j + 100)
    (hA : lineAt doc i = "local x = A()")
    (hB : lineAt doc j = "x = B()")
    (hmid : ∀ k, k ≤ q → j < k →
      occursIn ("x".data) (lineAt doc k).data = false)
    (hAcls : isKnownClass cs "A" = true)
    (hBcls : isKnownClass cs "B" = true) :
    inferVariableTypeFuel (fuel + 1) doc ⟨q, ch⟩ "x" cs fs = some (some "B") := by
  show inferLoop
    (processLine (fun d p v c f => inferVariableTypeFuel fuel d p v c f)
      doc cs fs "x") (downFrom q (min 100 q)) = some (some "B")
  apply inferLoop_downFrom_found _ "B" (min 100 q) q j hjq (by omega)
  · intro ln h1 h2
    exact processLine_noOccurrence _ doc cs fs "x" ln (hmid ln h2 h1)
  · have := processLineOn_rebind
      (fun d p v c f => inferVariableTypeFuel fuel d p v c f) doc cs fs j hBcls
    unfold processLine
    rw [hB]
    exact this

/-- Witness for the amended claim C2 at a concrete buffer and catalog. -/
theorem mostRecentBindingWinsWitness :
    inferVariableTypeFuel 1 ["local x = A()", "x = B()"] ⟨1, 4⟩ "x"
      [⟨"A", "class", "", "", none, none, none, none⟩,
       ⟨"B", "class", "", "", none, none, none, none⟩] [] = some (some "B") :=
  mostRecentBindingWins 0 ["local x = A()", "x = B()"] 0 1 1 4
    [⟨"A", "class", "", "", none, none, none, none⟩,
     ⟨"B", "class", "", "", none, none, none, none⟩] []
    (by decide) (by decide) (by decide) (by decide) (by decide)
    (by decide) (by decide) (by decide)

/-! ### Claim C3 -/

/-- Counterexample to claim C3 as stated: with `local first, second = Foo()`
on line 0 (`Foo` a known global function returning the known class `Bar`),
a query 101 lines later falls outside the backward window and infers `null`
for `first`, not `Bar`. -/
theorem firstSlotWindowCounterexample :
    inferVariableTypeFuel 1
        (["local first, second = Foo()"] ++ List.replicate 101 "") ⟨101, 0⟩ "first"
        [⟨"Bar", "class", "", "", none, none, none, none⟩]
        [⟨"Foo", "function", "", "",
          some ⟨"Foo()", "", [], some "Bar"⟩⟩] = some none ∧
      inferVariableTypeFuel 7
        (["local first, second = Foo()"] ++ List.replicate 101 "") ⟨101, 0⟩ "first"
        [⟨"Bar", "class", "", "", none, none, none, none⟩]
        [⟨"Foo", "function", "", "",
          some ⟨"Foo()", "", [], some "Bar"⟩⟩] ≠ some (some "Bar") := by
  constructor
  · rfl
  · decide

/-- Claim C3 (amended with the backward window): in a buffer whose line `j`
is `local first, second = Foo()` — `Foo` a known global function (not a
class name) whose first return-type token is the known class `Bar` — and
whose other lines up to the query never mention `first` or `second`, at any
position on or after line `j` and at most 100 lines below it, inferring
`first` yields `Bar` while inferring `second` yields `null` (the binding
statement is skipped for names after the separating comma). -/
theorem firstSlotOnlyTyping (fuel : Nat) (doc : List String) (j q ch : Nat)
    (cs : List ApiClass) (fs : List ApiFunction) (foo : ApiFunction)
    (sig : ApiSignature) (ret : String)
    (hjq : j ≤ q) (hwin : q ≤ j + 100)
    (hline : lineAt doc j = "local first, second = Foo()")
    (hother : ∀ k, k ≤ q → k ≠ j →
      occursIn ("first".data) (lineAt doc k).data = false ∧
        occursIn ("second".data) (lineAt doc k).data = false)
    (hfind : fs.find? (fun f => f.name == "Foo") = some foo)
    (hsig : foo.signature = some sig)
    (hret : sig.returns = some ret)
    (htok : firstCommaTok ret = "Bar")
    (hBar : isKnownClass cs "Bar" = true)
    (hFooNotClass : isKnownClass cs "Foo" = false) :
    inferVariableTypeFuel (fuel + 1) doc ⟨q, ch⟩ "first" cs fs = some (some "Bar") ∧
      inferVariableTypeFuel (fuel + 1) doc ⟨q, ch⟩ "second" cs fs = some none := by
  have hlook : lookupFunctionReturnClass cs fs "Foo" = some "Bar" := by
    simp only [lookupFunctionReturnClass, hfind, hsig, hret, htok, hBar]
    simp
  constructor
  · show inferLoop
      (processLine (fun d p v c f => inferVariableTypeFuel fuel d p v c f)
        doc cs fs "first") (downFrom q (min 100 q)) = some (some "Bar")
    apply inferLoop_downFrom_found _ "Bar" (min 100 q) q j hjq (by omega)
    · intro ln h1 h2
      exact processLine_noOccurrence _ doc cs fs "first" ln
        (hother ln h2 (by omega)).1
    · have := processLineOn_firstSlot
        (fun d p v c f => inferVariableTypeFuel fuel d p v c f) doc cs fs j
        hFooNotClass hlook
      unfold processLine
      rw [hline]
      exact this
  · show inferLoop
      (processLine (fun d p v c f => inferVariableTypeFuel fuel d p v c f)
        doc cs fs "second") (downFrom q (min 100 q)) = some none
    apply inferLoop_all_pass
    intro ln hln
    have hle : ln ≤ q := mem_downFrom_le hln
    by_cases hj : ln = j
    · right
      subst hj
      have := processLineOn_secondSlot
        (fun d p v c f => inferVariableTypeFuel fuel d p v c f) doc cs fs ln
      unfold processLine
      rw [hline]
      exact this
    · left
      exact processLine_noOccurrence _ doc cs fs "second" ln (hother ln hle hj).2

/-- Witness for the amended claim C3 at a concrete buffer and catalog. -/
theorem firstSlotOnlyTypingWitness :
    inferVariableTypeFuel 1 ["local first, second = Foo()"] ⟨0, 27⟩ "first"
        [⟨"Bar", "class", "", "", none, none, none, none⟩]
        [⟨"Foo", "function", "", "", some ⟨"Foo()", "", [], some "Bar"⟩⟩] =
      some (some "Bar") ∧
      inferVariableTypeFuel 1 ["local first, second = Foo()"] ⟨0, 27⟩ "second"
        [⟨"Bar", "class", "", "", none, none, none, none⟩]
        [⟨"Foo", "function", "", "", some ⟨"Foo()", "", [], some "Bar"⟩⟩] =
      some none :=
  firstSlotOnlyTyping 0 ["local first, second = Foo()"] 0 0 27
    [⟨"Bar", "class", "", "", none, none, none, none⟩]
    [⟨"Foo", "function", "", "", some ⟨"Foo()", "", [], some "Bar"⟩⟩]
    ⟨"Foo", "function", "", "", some ⟨"Foo()", "", [], some "Bar"⟩⟩
    ⟨"Foo()", "", [], some "Bar"⟩ "Bar"
    (by decide) (by decide) (by decide) (by decide) (by decide)
    (by decide) (by decide) (by decide) (by decide) (by decide)

/-! ### Claim C4 -/

/-- Claim C4: in a buffer with `local x = A()` on line `i` and a shadowing
declaration (`for x in ...` or `function x(...)`) on a later line `k0`,
with no mention of `x` between the declaration and the query, inferring `x` at
any position on or after line `k0` yields `null`: when the declaration is
inside the backward window the search stops there without continuing past
it, and when it is below the window the scan finds nothing either. -/
theorem declarationShadowStops (fuel : Nat) (doc : List String)
    (i k0 q ch : Nat) (cs : List ApiClass) (fs : List ApiFunction)
    (hik : i < k0) (hkq : k0 ≤ q)
    (hA : lineAt doc i = "local x = A()")
    (hdecl : lineAt doc k0 = "for x in list do" ∨ lineAt doc k0 = "function x(a)")
    (hmid : ∀ k, k ≤ q → k0 < k →
      occursIn ("x".data) (lineAt doc k).data = false)
    (hAcls : isKnownClass cs "A" = true) :
    inferVariableTypeFuel (fuel + 1) doc ⟨q, ch⟩ "x" cs fs = some none := by
  have hstop : processLine
      (fun d p v c f => inferVariableTypeFuel fuel d p v c f) doc cs fs "x" k0 =
      .stopSearch := by
    unfold processLine
    rcases hdecl with h | h <;> rw [h]
    · exact processLineOn_forDecl _ doc cs fs k0
    · exact processLineOn_functionDecl _ doc cs fs k0
  show inferLoop
    (processLine (fun d p v c f => inferVariableTypeFuel fuel d p v c f)
      doc cs fs "x") (downFrom q (min 100 q)) = some none
  by_cases hcase : q ≤ k0 + 100
  · exact inferLoop_downFrom_stop _ (min 100 q) q k0 hkq (by omega)
      (fun ln h1 h2 => processLine_noOccurrence _ doc cs fs "x" ln (hmid ln h2 h1))
      hstop
  · apply inferLoop_all_pass
    intro ln hln
    left
    have h1 : ln ≤ q := mem_downFrom_le hln
    have h2 : q - min 100 q ≤ ln := mem_downFrom_ge hln
    exact processLine_noOccurrence _ doc cs fs "x" ln (hmid ln h1 (by omega))

/-- Witness for claim C4 at a concrete buffer and catalog, for both
shadowing forms. -/
theorem declarationShadowStopsWitness :
    inferVariableTypeFuel 1 ["local x = A()", "for x in list do"] ⟨1, 16⟩ "x"
        [⟨"A", "class", "", "", none, none, none, none⟩] [] = some none ∧
      inferVariableTypeFuel 1 ["local x = A()", "function x(a)"] ⟨1, 13⟩ "x"
        [⟨"A", "class", "", "", none, none, none, none⟩] [] = some none :=
  ⟨declarationShadowStops 0 ["local x = A()", "for x in list do"] 0 1 1 16
      [⟨"A", "class", "", "", none, none, none, none⟩] []
      (by decide) (by decide) (by decide) (Or.inl (by decide)) (by decide) (by decide),
    declarationShadowStops 0 ["local x = A()", "function x(a)"] 0 1 1 13
      [⟨"A", "class", "", "", none, none, none, none⟩] []
      (by decide) (by decide) (by decide) (Or.inr (by decide)) (by decide) (by decide)⟩

/-! ### Claim C8 -/

/-- First-match characterization of `List.find?`. -/
theorem find?_first_index {α : Type} (p : α → Bool) :
    ∀ (l : List α) (c : α), l.find? p = some c →
      ∃ idx, l.get? idx = some c ∧ p c = true ∧
        ∀ k x, k < idx → l.get? k = some x → p x = false := by
  intro l
  induction l with
  | nil => intro c h; simp at h
  | cons a t ih =>
    intro c h
    by_cases hp : p a = true
    · rw [List.find?_cons_of_pos _ hp] at h
      injection h with h
      subst h
      exact ⟨0, rfl, hp, fun k x hk _ => absurd hk (Nat.not_lt_zero k)⟩
    · rw [List.find?_cons_of_neg _ hp] at h
      obtain ⟨idx, hget, hpc, hbefore⟩ := ih c h
      refine ⟨idx + 1, by simpa using hget, hpc, ?_⟩
      intro k x hk hgk
      cases k with
      | zero =>
        simp only [List.get?_cons_zero, Option.some.injEq] at hgk
        subst hgk
        exact Bool.eq_false_iff.mpr hp
      | succ m =>
        simp only [List.get?_cons_succ] at hgk
        exact hbefore m x (by omega) hgk

/-- Claim C8: for every nonempty constructor list and every argument index,
the call-argument constructor selection (`chooseConstructor`, as used by the
classifier's constructor branch) succeeds and picks the first declared
constructor with more parameters than the current argument index, falling
back to the first declared constructor when none has more. -/
theorem constructorSelectionTotal (ctors : List ApiConstructor) (commaCount : Nat)
    (hne : ctors ≠ []) :
    ∃ chosen, chooseConstructor ctors commaCount = some chosen ∧
      ((∃ idx, ctors.get? idx = some chosen ∧ commaCount < chosen.parameters.length ∧
          ∀ k c2, k < idx → ctors.get? k = some c2 →
            c2.parameters.length ≤ commaCount) ∨
        ((∀ c2 ∈ ctors, c2.parameters.length ≤ commaCount) ∧
          ctors.get? 0 = some chosen)) := by
  unfold chooseConstructor
  cases hfind : ctors.find? (fun c => decide (commaCount < c.parameters.length)) with
  | some c =>
    obtain ⟨idx, hget, hpc, hbefore⟩ :=
      find?_first_index (fun c => decide (commaCount < c.parameters.length)) ctors c hfind
    exact ⟨c, rfl, Or.inl ⟨idx, hget, by simpa using hpc,
      fun k c2 hk hgk => by simpa using hbefore k c2 hk hgk⟩⟩
  | none =>
    match ctors, hne with
    | a :: t, _ =>
      refine ⟨a, rfl, Or.inr ⟨?_, rfl⟩⟩
      intro c2 hc2
      have := List.find?_eq_none.mp hfind c2 hc2
      simpa using this

/-- Witness for claim C8: two constructors of arities 1 and 3 with the
cursor on argument index 1. -/
theorem constructorSelectionTotalWitness :
    ∃ chosen,
      chooseConstructor
          [⟨"C0(a)", "", [⟨"a", ""⟩]⟩,
           ⟨"C1(a, b, c)", "", [⟨"a", ""⟩, ⟨"b", ""⟩, ⟨"c", ""⟩]⟩] 1 = some chosen ∧
        ((∃ idx,
            [(⟨"C0(a)", "", [⟨"a", ""⟩]⟩ : ApiConstructor),
             ⟨"C1(a, b, c)", "", [⟨"a", ""⟩, ⟨"b", ""⟩, ⟨"c", ""⟩]⟩].get? idx =
              some chosen ∧
            1 < chosen.parameters.length ∧
            ∀ k c2, k < idx →
              [(⟨"C0(a)", "", [⟨"a", ""⟩]⟩ : ApiConstructor),
               ⟨"C1(a, b, c)", "", [⟨"a", ""⟩, ⟨"b", ""⟩, ⟨"c", ""⟩]⟩].get? k =
                some c2 →
              c2.parameters.length ≤ 1) ∨
          ((∀ c2 ∈
              [(⟨"C0(a)", "", [⟨"a", ""⟩]⟩ : ApiConstructor),
               ⟨"C1(a, b, c)", "", [⟨"a", ""⟩, ⟨"b", ""⟩, ⟨"c", ""⟩]⟩],
              c2.parameters.length ≤ 1) ∧
            [(⟨"C0(a)", "", [⟨"a", ""⟩]⟩ : ApiConstructor),
             ⟨"C1(a, b, c)", "", [⟨"a", ""⟩, ⟨"b", ""⟩, ⟨"c", ""⟩]⟩].get? 0 =
              some chosen)) :=
  constructorSelectionTotal
    [⟨"C0(a)", "", [⟨"a", ""⟩]⟩,
     ⟨"C1(a, b, c)", "", [⟨"a", ""⟩, ⟨"b", ""⟩, ⟨"c", ""⟩]⟩] 1 (by decide)

/-! ### Claim C7 -/

/-- Claim C7: whenever the classifier resolves a call-argument context
whose expected parameter type is a recognized primitive (`number`,
`string`, `boolean`, `double`, `int`, `float`, case-insensitively), the
completion provider returns the explicitly-empty completion list with
`isIncomplete = false` — distinguishable from a plain item array. -/
theorem primitiveSuppression (fuel : Nat) (doc : List String) (pos : Position)
    (cs : List ApiClass) (fs : List ApiFunction) (t fn : String) (idx : Nat)
    (hctx : getCompletionContext fuel doc pos cs fs =
      some (.functionParameter t fn idx))
    (hprim : primitiveTypes.contains (toLowerStr t) = true) :
    provideCompletionItems fuel doc pos cs fs = some (.list [] false) := by
  unfold provideCompletionItems
  rw [hctx]
  simp only [if_pos hprim]

/-- Witness for claim C7: `Foo(` where `Foo`'s first parameter is
documented `x: number` yields the empty, not-incomplete list. -/
theorem primitiveSuppressionWitness :
    provideCompletionItems 1 ["Foo("] ⟨0, 4⟩ []
        [⟨"Foo", "function", "", "",
          some ⟨"Foo(x)", "", [⟨"x", "x: number - the x coordinate"⟩], none⟩⟩] =
      some (.list [] false) :=
  primitiveSuppression 1 ["Foo("] ⟨0, 4⟩ []
    [⟨"Foo", "function", "", "",
      some ⟨"Foo(x)", "", [⟨"x", "x: number - the x coordinate"⟩], none⟩⟩]
    "number" "Foo" 0 (by decide) (by decide)

/-! ### Claim C6 -/

/-- On the buffer `Foo(` with the cursor after the parenthesis, the
classifier reaches the call-argument branch with target `Foo` and argument
index 0, for every catalog (definitional: the keyword, dot and colon checks
fail on this text). -/
theorem getCompletionContext_callFoo (fuel : Nat) (cs : List ApiClass)
    (fs : List ApiFunction) :
    getCompletionContext fuel ["Foo("] ⟨0, 4⟩ cs fs =
      some (callArgumentContext "Foo" 0 cs fs) := rfl

/-- Same as `getCompletionContext_callFoo` for the target `Bar`. -/
theorem getCompletionContext_callBar (fuel : Nat) (cs : List ApiClass)
    (fs : List ApiFunction) :
    getCompletionContext fuel ["Bar("] ⟨0, 4⟩ cs fs =
      some (callArgumentContext "Bar" 0 cs fs) := rfl

/-- Counterexample to claim C6 as stated: the global function `Foo` carries
the type token `Vector2D` in its first parameter's *label* (`v: Vector2D`),
which cascade step (ii) would extract, yet the classifier yields the plain
`identifier` context — for global functions only the parameter's
*documentation* is consulted, and `the vector` has no `: Type` token. -/
theorem functionParamLabelIgnoredCounterexample :
    getCompletionContext 1 ["Foo("] ⟨0, 4⟩
        [⟨"Vector2D", "class", "class Vector2D", "", none, none, none, none⟩]
        [⟨"Foo", "function", "", "",
          some ⟨"Foo(v)", "", [⟨"v: Vector2D", "the vector"⟩], none⟩⟩] =
      some .identifier ∧
      matchColonType ("v: Vector2D".data) = some "Vector2D" := by
  exact ⟨rfl, rfl⟩

/-- Claim C6 (amended): in every call-argument context — any document and
position whose classification reaches the open-paren scan, with any call
target name and any argument index (the flat comma count) — the expected
parameter type is derived as follows.  First conjunct (the bridge): such a
request is classified as `callArgumentContext` applied to the scanned
target name and comma count.  Second conjunct: when the target is a known
global function with a signature covering the argument index, a `: Type`
token in that parameter's *documentation* gives the expected type.  Third
conjunct: when that token is absent (and the target is not also a class
name) the classification falls back to `identifier` — the three-step
cascade is *not* applied to function targets.  Fourth conjunct: when the
target is not a global function but a known class with constructors, the
expected type is the `constructorExpectedType` cascade at the argument
index — (i) a `: Type` token at the parameter's position in the chosen
constructor's label, else (ii) a `: Type` token in the parameter's own
label, else (iii) the capitalized-word / fixed-primitive heuristic on the
parameter's documentation — and a cascade miss falls back to
`identifier`. -/
theorem callArgumentTypeDerivation :
    (∀ (fuel : Nat) (doc : List String) (pos : Position) (cs : List ApiClass)
       (fs : List ApiFunction) (bp ap : List Char) (name : String),
       luaBuiltInTypes.contains
           (toLowerStr (String.mk
             (wordRunAround (lineAt doc pos.line).data pos.character))) = false →
       luaKeywords.contains
           (toLowerStr (String.mk
             (wordRunAround (lineAt doc pos.line).data pos.character))) = false →
       testLocalDecl ((lineAt doc pos.line).data.take pos.character) = false →
       testKeywordContext ((lineAt doc pos.line).data.take pos.character) = false →
       matchDotEnd ((lineAt doc pos.line).data.take pos.character) = none →
       matchColonEnd ((lineAt doc pos.line).data.take pos.character) = none →
       scanOpenParen 0 ((lineAt doc pos.line).data.take pos.character).reverse [] =
         some (bp, ap) →
       trailingWord bp = some name →
       getCompletionContext fuel doc pos cs fs =
         some (callArgumentContext name (ap.count ',') cs fs)) ∧
    (∀ (name : String) (k : Nat) (cs : List ApiClass) (fs : List ApiFunction)
       (f : ApiFunction) (sig : ApiSignature) (p : ApiParameter) (t : String),
       fs.find? (fun g => g.name == name) = some f →
       f.signature = some sig →
       k < sig.parameters.length →
       sig.parameters.get? k = some p →
       matchColonType p.documentation.data = some t →
       callArgumentContext name k cs fs = .functionParameter t name k) ∧
    (∀ (name : String) (k : Nat) (cs : List ApiClass) (fs : List ApiFunction)
       (f : ApiFunction) (sig : ApiSignature) (p : ApiParameter),
       fs.find? (fun g => g.name == name) = some f →
       f.signature = some sig →
       k < sig.parameters.length →
       sig.parameters.get? k = some p →
       matchColonType p.documentation.data = none →
       cs.find? (fun c => c.name == name) = none →
       callArgumentContext name k cs fs = .identifier) ∧
    (∀ (name : String) (k : Nat) (cs : List ApiClass) (fs : List ApiFunction)
       (cls : ApiClass) (ctors : List ApiConstructor) (ctor : ApiConstructor)
       (p : ApiParameter),
       fs.find? (fun g => g.name == name) = none →
       cs.find? (fun c => c.name == name) = some cls →
       cls.constructors = some ctors →
       0 < ctors.length →
       chooseConstructor ctors k = some ctor →
       k < ctor.parameters.length →
       ctor.parameters.get? k = some p →
       callArgumentContext name k cs fs =
         match constructorExpectedType ctor p k with
         | some t => .functionParameter t name k
         | none => .identifier) := by
  refine ⟨?_, ?_, ?_, ?_⟩
  · intro fuel doc pos cs fs bp ap name h1 h2 h3 h4 h5 h6 h7 h8
    simp only [getCompletionContext, h1, h2, h3, h4, h5, h6, h7, h8,
      Bool.false_eq_true, if_false]
  · intro name k cs fs f sig p t hfind hsig hlen hget hdoc
    unfold callArgumentContext
    simp only [hfind, hsig, hget, hdoc, if_pos hlen]
  · intro name k cs fs f sig p hfind hsig hlen hget hdoc hnocls
    unfold callArgumentContext
    simp only [hfind, hsig, hget, hdoc, hnocls, if_pos hlen]
  · intro name k cs fs cls ctors ctor p hnofn hfind hctors hlen hchoose hplen hget
    unfold callArgumentContext
    simp only [hnofn, hfind, hctors, hchoose, hget, if_pos hlen, if_pos hplen]

/-- Witness for the amended claim C6, exercising all four conjuncts on the
buffers `Foo(1,` and `Bar(1,` (cursor after the comma, argument index 1): a
function parameter documented `vec: Vector2D - the vector` resolves to
`Vector2D`; an untyped documentation string falls back to `identifier`
although the parameter appears as `vec` in the label; the constructor
target `Bar` labelled `Bar(x: number, y: number)` resolves the second
argument through cascade step (i) to `number`. -/
theorem callArgumentTypeDerivationWitness :
    getCompletionContext 1 ["Foo(1,"] ⟨0, 6⟩ [] [fooDocumented] =
      some (.functionParameter "Vector2D" "Foo" 1) ∧
      getCompletionContext 1 ["Foo(1,"] ⟨0, 6⟩ [] [fooUndocumented] =
      some .identifier ∧
      getCompletionContext 1 ["Bar(1,"] ⟨0, 6⟩ [barClass] [] =
      some (.functionParameter "number" "Bar" 1) := by
  refine ⟨?_, ?_, ?_⟩
  · exact (callArgumentTypeDerivation.1 1 ["Foo(1,"] ⟨0, 6⟩ [] [fooDocumented]
      ("Foo".data) ['1', ','] "Foo"
      (by decide) (by decide) (by decide) (by decide) (by decide) (by decide)
      (by decide) (by decide)).trans
      (congrArg some (callArgumentTypeDerivation.2.1 "Foo" 1 [] [fooDocumented]
        fooDocumented
        ⟨"Foo(a, vec)", "",
          [⟨"a", "first"⟩, ⟨"vec", "vec: Vector2D - the vector"⟩], none⟩
        ⟨"vec", "vec: Vector2D - the vector"⟩ "Vector2D"
        (by decide) (by decide) (by decide) (by decide) (by decide)))
  · exact (callArgumentTypeDerivation.1 1 ["Foo(1,"] ⟨0, 6⟩ [] [fooUndocumented]
      ("Foo".data) ['1', ','] "Foo"
      (by decide) (by decide) (by decide) (by decide) (by decide) (by decide)
      (by decide) (by decide)).trans
      (congrArg some (callArgumentTypeDerivation.2.2.1 "Foo" 1 [] [fooUndocumented]
        fooUndocumented
        ⟨"Foo(a, vec)", "", [⟨"a", "first"⟩, ⟨"vec", "the vector"⟩], none⟩
        ⟨"vec", "the vector"⟩
        (by decide) (by decide) (by decide) (by decide) (by decide) (by decide)))
  · exact (callArgumentTypeDerivation.1 1 ["Bar(1,"] ⟨0, 6⟩ [barClass] []
      ("Bar".data) ['1', ','] "Bar"
      (by decide) (by decide) (by decide) (by decide) (by decide) (by decide)
      (by decide) (by decide)).trans
      (congrArg some (callArgumentTypeDerivation.2.2.2 "Bar" 1 [barClass] []
        barClass
        [⟨"Bar(x: number, y: number)", "", [⟨"x", "the x"⟩, ⟨"y", "the y"⟩]⟩]
        ⟨"Bar(x: number, y: number)", "", [⟨"x", "the x"⟩, ⟨"y", "the y"⟩]⟩
        ⟨"y", "the y"⟩
        (by decide) (by decide) (by decide) (by decide) (by decide) (by decide)
        (by decide)))

/-! ### Claim C5 -/

/-- Unfolding of the function-signature contribution. -/
theorem functionSignatureInfo_eq_some (fn : ApiFunction) (s : SignatureInformation) :
    functionSignatureInfo fn = some s ↔
      ∃ sig, fn.signature = some sig ∧ s = signatureOfApiSignature sig := by
  cases h : fn.signature <;> simp [functionSignatureInfo, h, eq_comm]

/-- Unfolding of the method-signature contribution. -/
theorem methodSignatureInfo_eq_some (m : ApiMethod) (s : SignatureInformation) :
    methodSignatureInfo m = some s ↔
      ∃ sig, m.signature = some sig ∧ s = signatureOfApiSignature sig := by
  cases h : m.signature <;> simp [methodSignatureInfo, h, eq_comm]

/-- Counterexample to claim C5 as stated: on the buffer `f(` the call
target under the cursor is `f`, yet the returned signature list contains
the signature of the unrelated global function `g` — the provider performs
no name filtering at all. -/
theorem signatureHelpUnfilteredCounterexample :
    callTargetOf ("f(".data) = some "f" ∧
      (⟨"g()", "gdoc", []⟩ : SignatureInformation) ∈
        (provideSignatureHelp ["f("] ⟨0, 2⟩
          [⟨"f", "function", "", "", some ⟨"f()", "fdoc", [], none⟩⟩,
           ⟨"g", "function", "", "", some ⟨"g()", "gdoc", [], none⟩⟩] []).signatures := by
  exact ⟨rfl, by decide⟩

/-- Claim C5 (amended): for every document, cursor position and catalog,
the signature-help list contains exactly the signatures of *all* global
functions, *all* class constructors and *all* class methods of the catalog
— independent of the call target under the cursor (no name filter) — and
the designated active signature and active parameter indices are always 0. -/
theorem signatureHelpAllSignatures (doc : List String) (pos : Position)
    (fs : List ApiFunction) (cs : List ApiClass) :
    (∀ s : SignatureInformation,
      s ∈ (provideSignatureHelp doc pos fs cs).signatures ↔
        ((∃ fn ∈ fs, ∃ sig, fn.signature = some sig ∧
            s = signatureOfApiSignature sig) ∨
          ∃ c ∈ cs,
            (∃ ct ∈ c.constructors.getD [], s = signatureOfConstructor ct) ∨
              ∃ m ∈ c.methods.getD [], ∃ sig, m.signature = some sig ∧
                s = signatureOfApiSignature sig)) ∧
      (provideSignatureHelp doc pos fs cs).activeSignature = 0 ∧
      (provideSignatureHelp doc pos fs cs).activeParameter = 0 := by
  refine ⟨?_, rfl, rfl⟩
  intro s
  simp only [provideSignatureHelp, List.mem_append, List.mem_filterMap,
    List.mem_flatten, List.mem_map, functionSignatureInfo_eq_some]
  constructor
  · rintro (⟨fn, hfn, hsig⟩ | ⟨l, ⟨c, hc, rfl⟩, hs⟩)
    · exact Or.inl ⟨fn, hfn, hsig⟩
    · rcases List.mem_append.mp hs with h | h
      · rcases List.mem_map.mp h with ⟨ct, hct, rfl⟩
        exact Or.inr ⟨c, hc, Or.inl ⟨ct, hct, rfl⟩⟩
      · rcases List.mem_filterMap.mp h with ⟨m, hm, hms⟩
        rcases (methodSignatureInfo_eq_some m s).mp hms with ⟨sig, hsig, hs'⟩
        exact Or.inr ⟨c, hc, Or.inr ⟨m, hm, sig, hsig, hs'⟩⟩
  · rintro (⟨fn, hfn, hsig⟩ | ⟨c, hc, h | h⟩)
    · exact Or.inl ⟨fn, hfn, hsig⟩
    · rcases h with ⟨ct, hct, rfl⟩
      refine Or.inr ⟨_, ⟨c, hc, rfl⟩, ?_⟩
      exact List.mem_append.mpr (Or.inl (List.mem_map.mpr ⟨ct, hct, rfl⟩))
    · rcases h with ⟨m, hm, sig, hsig, hs'⟩
      refine Or.inr ⟨_, ⟨c, hc, rfl⟩, ?_⟩
      refine List.mem_append.mpr (Or.inr (List.mem_filterMap.mpr ⟨m, hm, ?_⟩))
      exact (methodSignatureInfo_eq_some m s).mpr ⟨sig, hsig, hs'⟩

/-! ### Claim C9 -/

/-- A function hover contains the function's name. -/
theorem infix_functionHover (fn : ApiFunction) :
    fn.name.data <:+: (createFunctionHover fn).data :=
  ⟨"### ".data, (functionHoverBody fn).data, by
    simp [createFunctionHover, String.data_append, List.append_assoc]⟩

/-- A class hover contains the class's name. -/
theorem infix_classHover (cls : ApiClass) :
    cls.name.data <:+: (createClassHover cls).data :=
  ⟨"### ".data, (classHoverBody cls).data, by
    simp [createClassHover, String.data_append, List.append_assoc]⟩

/-- A method hover contains the method's name. -/
theorem infix_methodHover (cn : String) (m : ApiMethod) :
    m.name.data <:+: (createMethodHover cn m).data :=
  ⟨("### " ++ cn ++ ":").data, (methodHoverBody cn m).data, by
    simp [createMethodHover, String.data_append, List.append_assoc]⟩

/-- A property hover contains the property's name. -/
theorem infix_propertyHover (cn : String) (p : ApiProperty) :
    p.name.data <:+: (createPropertyHover cn p).data :=
  ⟨("### " ++ cn ++ ".").data, (propertyHoverBody p).data, by
    simp [createPropertyHover, String.data_append, List.append_assoc]⟩

/-- A constant hover contains the constant's name. -/
theorem infix_constantHover (cn : String) (k : ApiConstant) :
    k.name.data <:+: (createConstantHover cn k).data :=
  ⟨("### " ++ cn ++ ".").data, ("\n\n" ++ k.value).data, by
    simp [createConstantHover, String.data_append, List.append_assoc]⟩

/-- When the word is a method, property or constant name of some class, the
per-class scan returns a hover containing it. -/
theorem hoverScanClasses_contains (w : String) :
    ∀ (cs : List ApiClass),
      (wordInMethods cs w || wordInProperties cs w || wordInConstants cs w) = true →
      ∃ s, hoverScanClasses cs w = some s ∧ w.data <:+: s.data := by
  intro cs
  induction cs with
  | nil =>
    intro h
    simp [wordInMethods, wordInProperties, wordInConstants] at h
  | cons c rest ih =>
    intro h
    cases hm : (c.methods.getD []).find? (fun m => m.name == w) with
    | some m =>
      have hbeq := List.find?_some hm
      have hname : m.name = w := eq_of_beq hbeq
      exact ⟨_, by simp only [hoverScanClasses, hm], hname ▸ infix_methodHover c.name m⟩
    | none =>
      cases hp : (c.properties.getD []).find? (fun p => p.name == w) with
      | some p =>
        have hbeq := List.find?_some hp
        have hname : p.name = w := eq_of_beq hbeq
        exact ⟨_, by simp only [hoverScanClasses, hm, hp],
          hname ▸ infix_propertyHover c.name p⟩
      | none =>
        cases hk : (c.constants.getD []).find? (fun k => k.name == w) with
        | some k =>
          have hbeq := List.find?_some hk
          have hname : k.name = w := eq_of_beq hbeq
          exact ⟨_, by simp only [hoverScanClasses, hm, hp, hk],
            hname ▸ infix_constantHover c.name k⟩
        | none =>
          have hm' : (c.methods.getD []).any (fun m => m.name == w) = false := by
            rw [List.any_eq_false]
            exact fun m hmm => List.find?_eq_none.mp hm m hmm
          have hp' : (c.properties.getD []).any (fun p => p.name == w) = false := by
            rw [List.any_eq_false]
            exact fun p hpp => List.find?_eq_none.mp hp p hpp
          have hk' : (c.constants.getD []).any (fun k => k.name == w) = false := by
            rw [List.any_eq_false]
            exact fun k hkk => List.find?_eq_none.mp hk k hkk
          have h' : (wordInMethods rest w || wordInProperties rest w ||
              wordInConstants rest w) = true := by
            simp only [wordInMethods, wordInProperties, wordInConstants,
              List.any_cons, hm', hp', hk', Bool.false_or] at h
            exact h
          obtain ⟨s, hs, hin⟩ := ih h'
          exact ⟨s, by simp only [hoverScanClasses, hm, hp, hk]; exact hs, hin⟩

/-- When the word names no member of any class, the per-class scan finds
nothing. -/
theorem hoverScanClasses_none (w : String) :
    ∀ (cs : List ApiClass), wordInMethods cs w = false →
      wordInProperties cs w = false → wordInConstants cs w = false →
      hoverScanClasses cs w = none := by
  intro cs
  induction cs with
  | nil => intro _ _ _; rfl
  | cons c rest ih =>
    intro h1 h2 h3
    simp only [wordInMethods, List.any_cons, Bool.or_eq_false_iff] at h1
    simp only [wordInProperties, List.any_cons, Bool.or_eq_false_iff] at h2
    simp only [wordInConstants, List.any_cons, Bool.or_eq_false_iff] at h3
    have hm : (c.methods.getD []).find? (fun m => m.name == w) = none :=
      List.find?_eq_none.mpr fun m hmm => by
        have := List.any_eq_false.mp h1.1 m hmm
        simpa using this
    have hp : (c.properties.getD []).find? (fun p => p.name == w) = none :=
      List.find?_eq_none.mpr fun p hpp => by
        have := List.any_eq_false.mp h2.1 p hpp
        simpa using this
    have hk : (c.constants.getD []).find? (fun k => k.name == w) = none :=
      List.find?_eq_none.mpr fun k hkk => by
        have := List.any_eq_false.mp h3.1 k hkk
        simpa using this
    simp only [hoverScanClasses, hm, hp, hk]
    exact ih h1.2 h2.2 h3.2

/-- When the word names anything at all in the catalog, the hover lookup
returns content containing the word (whichever exact-name branch fires
first does so on a descriptor named by the word itself). -/
theorem hoverForWord_contains (fs : List ApiFunction) (cs : List ApiClass)
    (w : String)
    (h : (wordInFunctions fs w || wordInClasses cs w || wordInMethods cs w ||
      wordInProperties cs w || wordInConstants cs w) = true) :
    ∃ s, hoverForWord w fs cs = some s ∧ w.data <:+: s.data := by
  cases hf : fs.find? (fun f => f.name == w) with
  | some f =>
    have hbeq := List.find?_some hf
    have hname : f.name = w := eq_of_beq hbeq
    exact ⟨_, by simp only [hoverForWord, hf], hname ▸ infix_functionHover f⟩
  | none =>
    cases hc : cs.find? (fun c => c.name == w) with
    | some c =>
      have hbeq := List.find?_some hc
      have hname : c.name = w := eq_of_beq hbeq
      exact ⟨_, by simp only [hoverForWord, hf, hc], hname ▸ infix_classHover c⟩
    | none =>
      have hf' : wordInFunctions fs w = false := by
        rw [wordInFunctions, List.any_eq_false]
        exact fun f hff => List.find?_eq_none.mp hf f hff
      have hc' : wordInClasses cs w = false := by
        rw [wordInClasses, List.any_eq_false]
        exact fun c hcc => List.find?_eq_none.mp hc c hcc
      have h' : (wordInMethods cs w || wordInProperties cs w ||
          wordInConstants cs w) = true := by
        rw [hf', hc'] at h
        simpa using h
      obtain ⟨s, hs, hin⟩ := hoverScanClasses_contains w cs h'
      exact ⟨s, by simp only [hoverForWord, hf, hc]; exact hs, hin⟩

/-- Claim C9: a name present in exactly one of {global functions, classes,
methods, properties, constants} hovers to non-null content containing that
name; a name present in none of them hovers to null.  (`hoverForWord` is
the exact-name lookup `provideHover` runs on the word under the cursor.) -/
theorem hoverExactMatch (fs : List ApiFunction) (cs : List ApiClass) (w : String) :
    ((wordInFunctions fs w).toNat + (wordInClasses cs w).toNat +
        (wordInMethods cs w).toNat + (wordInProperties cs w).toNat +
        (wordInConstants cs w).toNat = 1 →
      ∃ s, hoverForWord w fs cs = some s ∧ w.data <:+: s.data) ∧
      (wordInFunctions fs w = false → wordInClasses cs w = false →
        wordInMethods cs w = false → wordInProperties cs w = false →
        wordInConstants cs w = false → hoverForWord w fs cs = none) := by
  constructor
  · intro hsum
    apply hoverForWord_contains fs cs w
    by_contra hcon
    simp only [Bool.or_eq_true, not_or, Bool.not_eq_true] at hcon
    obtain ⟨⟨⟨⟨h1, h2⟩, h3⟩, h4⟩, h5⟩ := hcon
    rw [h1, h2, h3, h4, h5] at hsum
    simp at hsum
  · intro h1 h2 h3 h4 h5
    have hf : fs.find? (fun f => f.name == w) = none :=
      List.find?_eq_none.mpr fun f hff => by
        have := List.any_eq_false.mp h1 f hff
        simpa using this
    have hc : cs.find? (fun c => c.name == w) = none :=
      List.find?_eq_none.mpr fun c hcc => by
        have := List.any_eq_false.mp h2 c hcc
        simpa using this
    simp only [hoverForWord, hf, hc]
    exact hoverScanClasses_none w cs h3 h4 h5

/-- Witness for claim C9: `GetHead` is exactly a method of `SelectionList`
in the sample catalog (hover contains it), and `Missing` is nowhere (hover
is null). -/
theorem hoverExactMatchWitness :
    (∃ s,
      hoverForWord "GetHead" []
          [⟨"SelectionList", "class", "", "", none, none,
            some [⟨"GetHead", "method", "", "",
              some ⟨"GetHead()", "", [], some "CadObject"⟩⟩], none⟩] = some s ∧
        ("GetHead" : String).data <:+: s.data) ∧
      hoverForWord "Missing" []
        [⟨"SelectionList", "class", "", "", none, none,
          some [⟨"GetHead", "method", "", "",
            some ⟨"GetHead()", "", [], some "CadObject"⟩⟩], none⟩] = none :=
  ⟨(hoverExactMatch []
      [⟨"SelectionList", "class", "", "", none, none,
        some [⟨"GetHead", "method", "", "",
          some ⟨"GetHead()", "", [], some "CadObject"⟩⟩], none⟩] "GetHead").1
      (by decide),
    (hoverExactMatch []
      [⟨"SelectionList", "class", "", "", none, none,
        some [⟨"GetHead", "method", "", "",
          some ⟨"GetHead()", "", [], some "CadObject"⟩⟩], none⟩] "Missing").2
      (by decide) (by decide) (by decide) (by decide) (by decide)⟩

/-! ### Claim C10 -/

/-- The merged property list of a chain result. -/
theorem chainResult_propsD (b : ApiClass) (rest : List ApiClass) :
    (chainResult b rest).properties.getD [] = chainProperties b rest := by
  cases rest <;> simp [chainResult, mergedClass, chainProperties]

/-- The merged method list of a chain result. -/
theorem chainResult_methodsD (b : ApiClass) (rest : List ApiClass) :
    (chainResult b rest).methods.getD [] = chainMethods b rest := by
  cases rest <;> simp [chainResult, mergedClass, chainMethods]

/-- The merged constant list of a chain result. -/
theorem chainResult_constantsD (b : ApiClass) (rest : List ApiClass) :
    (chainResult b rest).constants.getD [] = chainConstants b rest := by
  cases rest <;> simp [chainResult, mergedClass, chainConstants]

/-- Peeling one link off the merged property list. -/
theorem chainProperties_cons (c b : ApiClass) (rest : List ApiClass) :
    chainProperties c (b :: rest) =
      chainProperties b rest ++ c.properties.getD [] := by
  simp [chainProperties, List.map_append, List.flatten_append, List.append_assoc]

/-- Peeling one link off the merged method list. -/
theorem chainMethods_cons (c b : ApiClass) (rest : List ApiClass) :
    chainMethods c (b :: rest) = chainMethods b rest ++ c.methods.getD [] := by
  simp [chainMethods, List.map_append, List.flatten_append, List.append_assoc]

/-- Peeling one link off the merged constant list. -/
theorem chainConstants_cons (c b : ApiClass) (rest : List ApiClass) :
    chainConstants c (b :: rest) = chainConstants b rest ++ c.constants.getD [] := by
  simp [chainConstants, List.map_append, List.flatten_append, List.append_assoc]

/-- Claim C10 (implicit inheritance behavior).  First conjunct: along any
complete `extends` chain `bs` resolved in the catalog, the inheritance
merge (with fuel exceeding the chain length) returns the class unchanged
when the chain is empty — in particular when the `extends` token names a
class absent from the catalog — and otherwise the class with the whole
chain's properties, methods and constants merged in front of its own
(deepest base first, derived class's own members last).  Second conjunct:
in a member-access context the completion provider returns exactly the
merged class's properties followed by its constants, whose labels are the
merged member names in that order.  Third conjunct: in a method-access
context the completion provider returns exactly the merged class's methods,
whose labels are the merged method names in order. -/
theorem inheritanceMergedCompletions :
    (∀ (cs bs : List ApiClass) (c : ApiClass) (k : Nat),
      chainFrom cs c bs →
      getClassWithInheritanceFuel (bs.length + k + 1) c cs =
        some (chainResult c bs)) ∧
    (∀ (fuel : Nat) (doc : List String) (pos : Position) (cs : List ApiClass)
       (fs : List ApiFunction) (obj cn pre : String) (c merged : ApiClass),
      getCompletionContext fuel doc pos cs fs =
        some (.memberAccess obj cn pre) →
      findClassByName cs cn = some c →
      getClassWithInheritanceFuel fuel c cs = some merged →
      provideCompletionItems fuel doc pos cs fs =
        some (.items (createMemberCompletions merged .property ++
          createMemberCompletions merged .constant)) ∧
        (createMemberCompletions merged .property).map (fun it => it.label) =
          (merged.properties.getD []).map (fun p => p.name) ∧
        (createMemberCompletions merged .constant).map (fun it => it.label) =
          (merged.constants.getD []).map (fun k => k.name)) ∧
    (∀ (fuel : Nat) (doc : List String) (pos : Position) (cs : List ApiClass)
       (fs : List ApiFunction) (obj cn pre : String) (c merged : ApiClass),
      getCompletionContext fuel doc pos cs fs =
        some (.methodAccess obj cn pre) →
      findClassByName cs cn = some c →
      getClassWithInheritanceFuel fuel c cs = some merged →
      provideCompletionItems fuel doc pos cs fs =
        some (.items (createMemberCompletions merged .method)) ∧
        (createMemberCompletions merged .method).map (fun it => it.label) =
          (merged.methods.getD []).map (fun m => m.name)) := by
  refine ⟨?_, ?_, ?_⟩
  · intro cs bs
    induction bs with
    | nil =>
      intro c k hchain
      simp only [chainFrom] at hchain
      show (match matchExtends c.detail.data with
            | none => some c
            | some baseClassName =>
              match findClassByName cs baseClassName with
              | none => some c
              | some baseClass =>
                match getClassWithInheritanceFuel ([].length + k) baseClass cs with
                | none => none
                | some bi =>
                  some { c with
                         properties := some (bi.properties.getD [] ++ c.properties.getD []),
                         methods := some (bi.methods.getD [] ++ c.methods.getD []),
                         constants := some (bi.constants.getD [] ++ c.constants.getD []) }) =
        some (chainResult c [])
      cases hx : matchExtends c.detail.data with
      | none => simp [chainResult]
      | some bn =>
        rw [hx] at hchain
        simp [hchain, chainResult]
    | cons b rest ih =>
      intro c k hchain
      obtain ⟨hlink, hrest⟩ := hchain
      cases hx : matchExtends c.detail.data with
      | none => rw [hx] at hlink; exact absurd hlink id
      | some bn =>
        rw [hx] at hlink
        have hlink' : findClassByName cs bn = some b := hlink
        show (match matchExtends c.detail.data with
              | none => some c
              | some baseClassName =>
                match findClassByName cs baseClassName with
                | none => some c
                | some baseClass =>
                  match getClassWithInheritanceFuel ((b :: rest).length + k)
                      baseClass cs with
                  | none => none
                  | some bi =>
                    some { c with
                           properties := some (bi.properties.getD [] ++ c.properties.getD []),
                           methods := some (bi.methods.getD [] ++ c.methods.getD []),
                           constants := some (bi.constants.getD [] ++ c.constants.getD []) }) =
          some (chainResult c (b :: rest))
        simp only [hx, hlink']
        have hfuel : (b :: rest).length + k = rest.length + k + 1 := by
          simp only [List.length_cons]
          omega
        rw [hfuel, ih b k hrest]
        dsimp only
        rw [chainResult_propsD b rest, chainResult_methodsD b rest,
          chainResult_constantsD b rest]
        simp only [chainResult, mergedClass, chainProperties_cons,
          chainMethods_cons, chainConstants_cons]
  · intro fuel doc pos cs fs obj cn pre c merged hctx hfind hmerge
    refine ⟨?_, ?_, ?_⟩
    · unfold provideCompletionItems
      rw [hctx]
      simp only [hfind, hmerge]
    · simp [createMemberCompletions]
    · simp [createMemberCompletions]
  · intro fuel doc pos cs fs obj cn pre c merged hctx hfind hmerge
    refine ⟨?_, ?_⟩
    · unfold provideCompletionItems
      rw [hctx]
      simp only [hfind, hmerge]
    · simp [createMemberCompletions]

/-- Witness for claim C10 on the two-class catalog `Base`/`Der` (detail
`class Der extends Base`): the merge yields Base's members before Der's,
the member-access completion on `d.` (after `local d = Der()`) returns
exactly the merged properties and constants with those labels, and the
method-access completion on `d:` returns exactly the merged methods
(`M0` from Base before `M1` from Der). -/
theorem inheritanceMergedCompletionsWitness :
    getClassWithInheritanceFuel 2 sampleDer [sampleBase, sampleDer] =
      some (chainResult sampleDer [sampleBase]) ∧
      (provideCompletionItems 2 ["local d = Der()", "d."] ⟨1, 2⟩
          [sampleBase, sampleDer] [] =
        some (.items
          (createMemberCompletions (chainResult sampleDer [sampleBase]) .property ++
            createMemberCompletions (chainResult sampleDer [sampleBase]) .constant)) ∧
        (createMemberCompletions (chainResult sampleDer [sampleBase]) .property).map
            (fun it => it.label) =
          ((chainResult sampleDer [sampleBase]).properties.getD []).map
            (fun p => p.name) ∧
        (createMemberCompletions (chainResult sampleDer [sampleBase]) .constant).map
            (fun it => it.label) =
          ((chainResult sampleDer [sampleBase]).constants.getD []).map
            (fun k => k.name)) ∧
      (provideCompletionItems 2 ["local d = Der()", "d:"] ⟨1, 2⟩
          [sampleBase, sampleDer] [] =
        some (.items
          (createMemberCompletions (chainResult sampleDer [sampleBase]) .method)) ∧
        (createMemberCompletions (chainResult sampleDer [sampleBase]) .method).map
            (fun it => it.label) =
          ((chainResult sampleDer [sampleBase]).methods.getD []).map
            (fun m => m.name)) ∧
      ((chainResult sampleDer [sampleBase]).methods.getD []).map
          (fun m => m.name) = ["M0", "M1"] :=
  ⟨inheritanceMergedCompletions.1 [sampleBase, sampleDer] [sampleBase] sampleDer 0
      ⟨rfl, trivial⟩,
    inheritanceMergedCompletions.2.1 2 ["local d = Der()", "d."] ⟨1, 2⟩
      [sampleBase, sampleDer] [] "d" "Der" "" sampleDer
      (chainResult sampleDer [sampleBase])
      (by decide) (by decide) (by decide),
    inheritanceMergedCompletions.2.2 2 ["local d = Der()", "d:"] ⟨1, 2⟩
      [sampleBase, sampleDer] [] "d" "Der" "" sampleDer
      (chainResult sampleDer [sampleBase])
      (by decide) (by decide) (by decide),
    by decide⟩

end Vectric
